import Mathlib

/-!
Shallow embedding of `src/source/pdf/pdf-colorspace.c` (mupdf PDF colorspace
resolution).

The PDF object model, the store (cache), the function loader and the stream
reader live outside `src/`; they are modelled from the spec (each such
definition carries a `Modelled from the spec:` doc comment).  Everything in
`pdf-colorspace.c` itself — `load_icc_based`, `load_separation`,
`load_indexed`, `pdf_is_tint_colorspace`, `pdf_load_colorspace_imp`,
`pdf_load_colorspace` — is translated line by line.

Resource accounting: the state carries a heap of reference counts
(`id ↦ (rc, owned ids)`), so that the guaranteed-release-on-all-paths
discipline of the C code (`fz_try`/`fz_always`/`fz_catch`) can be proved as a
conservation law (`wfSt`): every live reference is held by the cache, by an
owning colorspace, or by the caller.
-/

namespace Mupdf

/-- Modelled from the spec: a document object ("descriptor") node.  Arrays and
dicts hold the ids of their children, so every node has a stable identity
(`§3: has a stable identity usable as a cache/guard key`).  `ref` is an
indirect reference to a numbered object. -/
inductive PdfVal where
  | null
  | name (s : String)
  | int (i : Int)
  | string (bytes : List Nat)
  | ref (target : Nat)
  | array (elts : List Nat)
  | dict (entries : List (String × Nat))
deriving DecidableEq

/-- Modelled from the spec: behaviour of the external stream capability
(`§6: open(indirectRef) -> reader, read(buffer, maxLen) -> bytesRead`) on a
given numbered object: opening fails, reading fails, or reading yields the
given bytes. -/
inductive StreamRes where
  | openFail
  | readFail
  | ok (bytes : List Nat)
deriving DecidableEq

/-- Modelled from the spec: the document together with the external
collaborators consumed by the resolver: the object graph, the function-loader
oracle (`§6: load(descriptor, nIn, nOut) -> Function`, which may fail), and
the stream oracle. -/
structure Doc where
  objs : List (Nat × PdfVal)
  funcOk : Option Nat → Nat → Nat → Bool
  streams : Nat → StreamRes

/-- Modelled from the spec: fetch the raw value stored for an object id
(missing objects behave as the null object). -/
def lookupObj (d : Doc) (i : Nat) : PdfVal :=
  match d.objs.lookup i with
  | some v => v
  | none => .null

/-- Modelled from the spec: follow chains of indirect references (the
`RESOLVE` step every typed accessor performs), returning the id and value of
the final object. -/
def resolveIdVal (d : Doc) : Nat → Nat → Nat × PdfVal
  | 0, i => (i, .null)
  | f + 1, i =>
    match lookupObj d i with
    | .ref t => resolveIdVal d f t
    | v => (i, v)

/-- Resolve an object handle (`none` models the C `NULL` pointer). -/
def resolveObj (d : Doc) (o : Option Nat) : Option (Nat × PdfVal) :=
  o.map (fun i => resolveIdVal d (d.objs.length + 1) i)

/-- The resolved value of an object handle. -/
def resVal (d : Doc) (o : Option Nat) : PdfVal :=
  match resolveObj d o with
  | some p => p.2
  | none => .null

/-- The resolved identity of an object handle (key used by the recursion
marks, mirroring that `pdf_mark_obj` / `pdf_obj_marked` resolve first). -/
def resId (d : Doc) (o : Option Nat) : Option Nat :=
  (resolveObj d o).map (fun p => p.1)

/-- Modelled from the spec: `arrayGet(i)` accessor; out of bounds or applied
to a non-array gives the C `NULL`. -/
def pdf_array_get (d : Doc) (o : Option Nat) (k : Nat) : Option Nat :=
  match resVal d o with
  | .array l => l.get? k
  | _ => none

/-- Modelled from the spec: `arrayLen()` accessor. -/
def pdf_array_len (d : Doc) (o : Option Nat) : Nat :=
  match resVal d o with
  | .array l => l.length
  | _ => 0

/-- Modelled from the spec: `dictGet(key)` accessor. -/
def pdf_dict_get (d : Doc) (o : Option Nat) (k : String) : Option Nat :=
  match resVal d o with
  | .dict es => es.lookup k
  | _ => none

/-- Modelled from the spec: `toInt()` accessor — non-integers read as 0. -/
def pdf_to_int (d : Doc) (o : Option Nat) : Int :=
  match resVal d o with
  | .int i => i
  | _ => 0

/-- Modelled from the spec: array-shape test. -/
def pdf_is_array (d : Doc) (o : Option Nat) : Bool :=
  match resVal d o with
  | .array _ => true
  | _ => false

/-- Modelled from the spec: string-shape test. -/
def pdf_is_string (d : Doc) (o : Option Nat) : Bool :=
  match resVal d o with
  | .string _ => true
  | _ => false

/-- Modelled from the spec: `stringBytes()+length` accessor (bytes). -/
def pdf_to_str_bytes (d : Doc) (o : Option Nat) : List Nat :=
  match resVal d o with
  | .string bs => bs
  | _ => []

/-- Modelled from the spec: `stringBytes()+length` accessor (length). -/
def pdf_to_str_len (d : Doc) (o : Option Nat) : Nat :=
  (pdf_to_str_bytes d o).length

/-- Modelled from the spec: `isIndirect()` — tests the raw handle itself,
without resolving. -/
def pdf_is_indirect (d : Doc) (o : Option Nat) : Bool :=
  match o with
  | some i =>
    match lookupObj d i with
    | .ref _ => true
    | _ => false
  | none => false

/-- Target number of an indirect reference (the object `pdf_open_stream`
opens). -/
def refTarget (d : Doc) (o : Option Nat) : Nat :=
  match o with
  | some i =>
    match lookupObj d i with
    | .ref t => t
    | _ => 0
  | none => 0

/-- The four device singletons (`fz_device_gray` …). -/
inductive DevKind where
  | gray | rgb | cmyk | lab
deriving DecidableEq

/-- The `to_rgb` conversion function installed in a colorspace at creation
time; `fz_colorspace_is` compares against it.  Each creation site in the
source passes exactly one of these. -/
inductive ConvFn where
  | grayConv | rgbConv | cmykConv | labConv | indexedConv | sepConv
deriving DecidableEq

/-- A runtime `fz_colorspace`.  `hid` is the heap id of the allocation (device
singletons are static and carry none); `lookupId` / `tintId` are the heap ids
of the owned lookup buffer / tint function. -/
inductive CS where
  | device (k : DevKind)
  | indexed (hid : Nat) (base : CS) (high : Nat) (lookupId : Nat) (table : List Nat)
  | sepcs (hid : Nat) (nm : String) (n : Nat) (base : CS) (tintId : Nat)
deriving DecidableEq

/-- Component count `cs->n`. -/
def csN : CS → Nat
  | .device .gray => 1
  | .device .rgb => 3
  | .device .cmyk => 4
  | .device .lab => 3
  | .indexed _ _ _ _ _ => 1
  | .sepcs _ _ n _ _ => n

/-- Colorspace name as passed to `fz_new_colorspace`. -/
def csName : CS → String
  | .device .gray => "DeviceGray"
  | .device .rgb => "DeviceRGB"
  | .device .cmyk => "DeviceCMYK"
  | .device .lab => "Lab"
  | .indexed _ _ _ _ _ => "Indexed"
  | .sepcs _ nm _ _ _ => nm

/-- Heap id of a colorspace (none for the static device singletons). -/
def csId : CS → Option Nat
  | .device _ => none
  | .indexed i _ _ _ _ => some i
  | .sepcs i _ _ _ _ => some i

/-- The `to_rgb` function carried by a colorspace: device singletons carry
their device converters, `fz_new_indexed_colorspace` installs the indexed
converter, and `load_separation` passes `separation_to_rgb`. -/
def csConv : CS → ConvFn
  | .device .gray => .grayConv
  | .device .rgb => .rgbConv
  | .device .cmyk => .cmykConv
  | .device .lab => .labConv
  | .indexed _ _ _ _ _ => .indexedConv
  | .sepcs _ _ _ _ _ => .sepConv

/-- Translation of `fz_colorspace_is(ctx, cs, f)`: does `cs` carry `f` as its converter? -/
def fz_colorspace_is (cs : CS) (f : ConvFn) : Bool :=
  csConv cs == f

/-- Spec `kind` tag (`§3`): Separation and DeviceN share one kind. -/
inductive Kind where
  | devGray | devRGB | devCMYK | devLab | indexedK | sepDeviceN
deriving DecidableEq

/-- The kind of a colorspace value. -/
def kindOf : CS → Kind
  | .device .gray => .devGray
  | .device .rgb => .devRGB
  | .device .cmyk => .devCMYK
  | .device .lab => .devLab
  | .indexed _ _ _ _ _ => .indexedK
  | .sepcs _ _ _ _ _ => .sepDeviceN

/-- One constructor per `fz_throw` site of `pdf-colorspace.c`, plus the
errors of the external collaborators and the out-of-fuel artefact of the
embedding. -/
inductive Err where
  | fuelOut
  | recursion
  | unknownName (s : String)
  | unknownFamily (s : String)
  | badDescriptor
  | iccAltMismatch
  | iccBadN
  | tooManyComponents
  | badLookup
  | funcLoadFail
  | streamOpenFail
  | streamReadFail
deriving DecidableEq

deriving instance DecidableEq for Except

/-- The spec's error taxonomy (`§7`). -/
inductive ErrClass where
  | syntaxError | cycleError | componentLimitError | resourceLoadError | internal
deriving DecidableEq

/-- Classification of each throw site under the spec taxonomy. -/
def errClass : Err → ErrClass
  | .fuelOut => .internal
  | .recursion => .cycleError
  | .tooManyComponents => .componentLimitError
  | .funcLoadFail => .resourceLoadError
  | .streamOpenFail => .resourceLoadError
  | .streamReadFail => .resourceLoadError
  | _ => .syntaxError

/-- Mutable session state: the identity cache, the recursion marks, and the
heap of reference-counted allocations `(id, rc, owned ids)`.  An `rc` of 0
models a freed allocation. -/
structure St where
  cache : List (Nat × CS)
  marks : List Nat
  heap : List (Nat × Nat × List Nat)
  nextId : Nat
deriving DecidableEq

/-- Reference count of a heap id (0 when absent / freed). -/
def rcOf (st : St) (i : Nat) : Nat :=
  match st.heap.find? (fun c => c.1 == i) with
  | some c => c.2.1
  | none => 0

/-- Apply `f` to the reference count of id `i`. -/
def adjustRc (st : St) (i : Nat) (f : Nat → Nat) : St :=
  { st with heap := st.heap.map (fun c => if c.1 == i then (c.1, f c.2.1, c.2.2) else c) }

/-- An `fz_keep`-style increment (no-op on the static singletons, i.e. `none`). -/
def heapIncr (st : St) (o : Option Nat) : St :=
  match o with
  | some i => adjustRc st i (fun r => r + 1)
  | none => st

/-- An `fz_drop`/`fz_free`-style decrement (no-op on the static singletons). -/
def heapDecr (st : St) (o : Option Nat) : St :=
  match o with
  | some i => adjustRc st i (fun r => r - 1)
  | none => st

/-- Allocate a fresh resource with reference count 1 owning `owns`. -/
def heapAlloc (st : St) (owns : List Nat) : Nat × St :=
  (st.nextId,
    { st with heap := (st.nextId, 1, owns) :: st.heap, nextId := st.nextId + 1 })

/-- Translation of `fz_drop_colorspace` on a runtime colorspace value. -/
def fz_drop_colorspace (st : St) (cs : CS) : St :=
  heapDecr st (csId cs)

/-- Is this resolved identity currently marked in-progress? -/
def markedQ (st : St) (o : Option Nat) : Bool :=
  match o with
  | some i => st.marks.contains i
  | none => false

/-- Translation of `pdf_obj_marked`: resolves, then reads the mark. -/
def pdf_obj_marked (d : Doc) (st : St) (o : Option Nat) : Bool :=
  markedQ st (resId d o)

/-- Translation of `pdf_mark_obj`: resolves, then sets the mark. -/
def pdf_mark_obj (d : Doc) (st : St) (o : Option Nat) : St :=
  match resId d o with
  | some i => { st with marks := i :: st.marks }
  | none => st

/-- Translation of `pdf_unmark_obj`: resolves, then clears the mark. -/
def pdf_unmark_obj (d : Doc) (st : St) (o : Option Nat) : St :=
  match resId d o with
  | some i => { st with marks := st.marks.erase i }
  | none => st

/-- Modelled from the spec: `pdf_find_item` — cache lookup keyed by
descriptor identity (`§3: (descriptor identity) → shared ColorSpace`); a hit
returns a kept (reference-counted) handle, the keep applied by the caller. -/
def pdf_find_item (st : St) (o : Option Nat) : Option CS :=
  match o with
  | some k => st.cache.lookup k
  | none => none

/-- Modelled from the spec: `pdf_store_item` — insert into the cache keyed by
descriptor identity, the store holding its own reference on the value. -/
def pdf_store_item (st : St) (o : Option Nat) (cs : CS) : St :=
  match o with
  | some k => heapIncr { st with cache := (k, cs) :: st.cache } (csId cs)
  | none => st

/-- The constant `FZ_MAX_COLORS`. -/
def FZ_MAX_COLORS : Nat := 32

/-- Translation of `fz_clampi`. -/
def fz_clampi (v lo hi : Int) : Int :=
  if v < lo then lo else if v > hi then hi else v

/-- Translation of `load_icc_based` (lines 7–46).  `R` stands for the recursive
`pdf_load_colorspace` call.  The `fz_try`/`fz_catch` around the alternate
resolution swallows both a nested failure and the component-count-mismatch
throw; `icc_fallback` is the `switch (n)` at the end. -/
def icc_fallback (n : Int) (st : St) : Except Err CS × St :=
  if n = 1 then (.ok (.device .gray), st)
  else if n = 3 then (.ok (.device .rgb), st)
  else if n = 4 then (.ok (.device .cmyk), st)
  else (.error .iccBadN, st)

def load_icc_based (R : St → Option Nat → Except Err CS × St) (d : Doc) (st : St)
    (dictObj : Option Nat) : Except Err CS × St :=
  let n : Int := pdf_to_int d (pdf_dict_get d dictObj "N")
  match pdf_dict_get d dictObj "Alternate" with
  | some a =>
    match R st (some a) with
    | (.ok cs_alt, st1) =>
      if (csN cs_alt : Int) ≠ n then
        icc_fallback n (fz_drop_colorspace st1 cs_alt)
      else
        (.ok cs_alt, st1)
    | (.error _, st1) => icc_fallback n st1
  | none => icc_fallback n st

/-- Translation of `load_separation` (lines 76–123).  The base load sits outside the
`fz_try`; on a tint-function load failure the catch drops the base (the tint
and the partially built payload are still `NULL` there). -/
def load_separation (R : St → Option Nat → Except Err CS × St) (d : Doc) (st : St)
    (obj : Option Nat) : Except Err CS × St :=
  let nameobj := pdf_array_get d obj 1
  let baseobj := pdf_array_get d obj 2
  let tintobj := pdf_array_get d obj 3
  let n := if pdf_is_array d nameobj then pdf_array_len d nameobj else 1
  if n > FZ_MAX_COLORS then
    (.error .tooManyComponents, st)
  else
    match R st baseobj with
    | (.error e, st1) => (.error e, st1)
    | (.ok base, st1) =>
      if d.funcOk tintobj n (csN base) then
        let p1 := heapAlloc st1 []
        let p2 := heapAlloc p1.2 ((csId base).toList ++ [p1.1])
        (.ok (.sepcs p2.1 (if n == 1 then "Separation" else "DeviceN") n base p1.1), p2.2)
      else
        (.error .funcLoadFail, fz_drop_colorspace st1 base)

/-- Translation of `pdf_is_tint_colorspace` (lines 125–129). -/
def pdf_is_tint_colorspace (cs : CS) : Bool :=
  fz_colorspace_is cs .sepConv

/-- Translation of `load_indexed` (lines 133–199).  Everything from the base load on sits in
one `fz_try`; the catch drops the base and frees the lookup buffer.  The
stream branch opens the stream inside a nested `fz_try` whose `fz_always`
closes it, and zero-fills a short read. -/
def load_indexed (R : St → Option Nat → Except Err CS × St) (d : Doc) (st : St)
    (obj : Option Nat) : Except Err CS × St :=
  let baseobj := pdf_array_get d obj 1
  let highobj := pdf_array_get d obj 2
  let lookupobj := pdf_array_get d obj 3
  match R st baseobj with
  | (.error e, st1) => (.error e, st1)
  | (.ok base, st1) =>
    let high : Nat := (fz_clampi (pdf_to_int d highobj) 0 255).toNat
    let n : Nat := csN base * (high + 1)
    let pl := heapAlloc st1 []
    if pdf_is_string d lookupobj ∧ pdf_to_str_len d lookupobj ≥ n then
      let table := (pdf_to_str_bytes d lookupobj).take n
      let pc := heapAlloc pl.2 ((csId base).toList ++ [pl.1])
      (.ok (.indexed pc.1 base high pl.1 table), pc.2)
    else if pdf_is_indirect d lookupobj then
      match d.streams (refTarget d lookupobj) with
      | .openFail =>
        let stA := fz_drop_colorspace pl.2 base
        (.error .streamOpenFail, heapDecr stA (some pl.1))
      | .readFail =>
        let pf := heapAlloc pl.2 []
        let st4 := heapDecr pf.2 (some pf.1)
        let stA := fz_drop_colorspace st4 base
        (.error .streamReadFail, heapDecr stA (some pl.1))
      | .ok bytes =>
        let pf := heapAlloc pl.2 []
        let table := bytes.take n ++ List.replicate (n - min bytes.length n) 0
        let st4 := heapDecr pf.2 (some pf.1)
        let pc := heapAlloc st4 ((csId base).toList ++ [pl.1])
        (.ok (.indexed pc.1 base high pl.1 table), pc.2)
    else
      let stA := fz_drop_colorspace pl.2 base
      (.error .badLookup, heapDecr stA (some pl.1))

/-- Translation of `pdf_load_colorspace_imp` (lines 203–306).  `R` is the recursive
`pdf_load_colorspace`.  The deep-family branch marks the descriptor, runs the
builder, and unmarks on every exit (`fz_always`). -/
def pdf_load_colorspace_imp (R : St → Option Nat → Except Err CS × St) (d : Doc)
    (st : St) (obj : Option Nat) : Except Err CS × St :=
  if pdf_obj_marked d st obj then
    (.error .recursion, st)
  else
    match resVal d obj with
    | .name s =>
      if s = "Pattern" then (.ok (.device .gray), st)
      else if s = "G" then (.ok (.device .gray), st)
      else if s = "RGB" then (.ok (.device .rgb), st)
      else if s = "CMYK" then (.ok (.device .cmyk), st)
      else if s = "DeviceGray" then (.ok (.device .gray), st)
      else if s = "DeviceRGB" then (.ok (.device .rgb), st)
      else if s = "DeviceCMYK" then (.ok (.device .cmyk), st)
      else (.error (.unknownName s), st)
    | .array _ =>
      let nameo := pdf_array_get d obj 0
      match resVal d nameo with
      | .name s =>
        if s = "G" then (.ok (.device .gray), st)
        else if s = "RGB" then (.ok (.device .rgb), st)
        else if s = "CMYK" then (.ok (.device .cmyk), st)
        else if s = "DeviceGray" then (.ok (.device .gray), st)
        else if s = "DeviceRGB" then (.ok (.device .rgb), st)
        else if s = "DeviceCMYK" then (.ok (.device .cmyk), st)
        else if s = "CalGray" then (.ok (.device .gray), st)
        else if s = "CalRGB" then (.ok (.device .rgb), st)
        else if s = "CalCMYK" then (.ok (.device .cmyk), st)
        else if s = "Lab" then (.ok (.device .lab), st)
        else
          let st1 := pdf_mark_obj d st obj
          let res :=
            if s = "ICCBased" then load_icc_based R d st1 (pdf_array_get d obj 1)
            else if s = "Indexed" then load_indexed R d st1 obj
            else if s = "I" then load_indexed R d st1 obj
            else if s = "Separation" then load_separation R d st1 obj
            else if s = "DeviceN" then load_separation R d st1 obj
            else if s = "Pattern" then
              match pdf_array_get d obj 1 with
              | none => (.ok (.device .gray), st1)
              | some p => R st1 (some p)
            else (.error (.unknownFamily s), st1)
          (res.1, pdf_unmark_obj d res.2 obj)
      | _ => (.error .badDescriptor, st)
    | _ => (.error .badDescriptor, st)

/-- Translation of `pdf_load_colorspace` (lines 308–323): cache lookup, else resolve and
store.  The first argument is recursion fuel (the C recursion is bounded by
the finite object graph via the recursion marks). -/
def pdf_load_colorspace : Nat → Doc → St → Option Nat → Except Err CS × St
  | 0, _, st, _ => (.error .fuelOut, st)
  | f + 1, d, st, obj =>
    match pdf_find_item st obj with
    | some cs => (.ok cs, heapIncr st (csId cs))
    | none =>
      match pdf_load_colorspace_imp (fun st2 o2 => pdf_load_colorspace f d st2 o2) d st obj with
      | (.ok cs, st1) => (.ok cs, pdf_store_item st1 obj cs)
      | (.error e, st1) => (.error e, st1)

/-! ### Resource accounting

`wfSt st roots` is the conservation law: the reference count of every
allocation equals the number of its holders — caller-held references
(`roots`), cache entries whose value is that allocation, and owning
colorspaces (`owns` edges in the heap).  `freshSt` says ids at or above
`nextId` are completely unused. -/

/-- Number of cache entries holding a reference on heap id `i`. -/
def cacheHolds (st : St) (i : Nat) : Nat :=
  (st.cache.filter (fun e => csId e.2 == some i)).length

/-- Number of ownership edges from live allocations onto heap id `i`. -/
def ownsHolds (st : St) (i : Nat) : Nat :=
  (st.heap.map (fun c => c.2.2.count i)).sum

/-- The caller-held references produced by a successful resolution: one on
the result if it is not a static singleton. -/
def pushRef (cs : CS) (roots : List Nat) : List Nat :=
  match csId cs with
  | some i => i :: roots
  | none => roots

/-- Conservation law: every reference is held by the caller, the cache, or an
owning allocation. -/
def wfSt (st : St) (roots : List Nat) : Prop :=
  ∀ i, rcOf st i = roots.count i + cacheHolds st i + ownsHolds st i

/-- All ids at or above `nextId` are untouched. -/
def freshSt (st : St) : Prop :=
  ∀ i, st.nextId ≤ i → rcOf st i = 0 ∧ cacheHolds st i = 0 ∧ ownsHolds st i = 0


theorem find?_map_adjust (l : List (Nat × Nat × List Nat)) (i : Nat) (f : Nat → Nat) (j : Nat) :
    (l.map (fun c => if c.1 == i then (c.1, f c.2.1, c.2.2) else c)).find? (fun c => c.1 == j)
      = (l.find? (fun c => c.1 == j)).map (fun c => if c.1 == i then (c.1, f c.2.1, c.2.2) else c) := by
  induction l with
  | nil => rfl
  | cons c l ih =>
    have h1 : ((if c.1 == i then (c.1, f c.2.1, c.2.2) else c) : Nat × Nat × List Nat).1 = c.1 := by
      by_cases h : c.1 = i <;> simp [h]
    by_cases hcj : c.1 = j
    · have h2 : (((if c.1 == i then (c.1, f c.2.1, c.2.2) else c) : Nat × Nat × List Nat).1 == j) = true := by
        simp only [h1]
        simpa using hcj
      have h3 : (c.1 == j) = true := by simpa using hcj
      rw [List.map_cons]
      simp only [List.find?_cons]
      rw [h2, h3]
      rfl
    · have h2 : (((if c.1 == i then (c.1, f c.2.1, c.2.2) else c) : Nat × Nat × List Nat).1 == j) = false := by
        simp only [h1]
        simpa using hcj
      have h3 : (c.1 == j) = false := by simpa using hcj
      rw [List.map_cons]
      simp only [List.find?_cons]
      rw [h2, h3, ih]

theorem heap_adjust (st : St) (i : Nat) (f : Nat → Nat) :
    (adjustRc st i f).heap = st.heap.map (fun c => if c.1 == i then (c.1, f c.2.1, c.2.2) else c) := rfl

theorem rcOf_adjust_ne (st : St) (i : Nat) (f : Nat → Nat) (j : Nat) (h : j ≠ i) :
    rcOf (adjustRc st i f) j = rcOf st j := by
  unfold rcOf
  rw [heap_adjust, find?_map_adjust]
  cases hf : st.heap.find? (fun c => c.1 == j) with
  | none => rfl
  | some c =>
    have hc : c.1 = j := by simpa using List.find?_some hf
    have hne : (c.1 == i) = false := by simp [hc, h]
    simp [Option.map, hne]

theorem rcOf_adjust_self (st : St) (i : Nat) (f : Nat → Nat) (h : 0 < rcOf st i) :
    rcOf (adjustRc st i f) i = f (rcOf st i) := by
  unfold rcOf
  rw [heap_adjust, find?_map_adjust]
  cases hf : st.heap.find? (fun c => c.1 == i) with
  | none =>
    exfalso
    unfold rcOf at h
    rw [hf] at h
    simp at h
  | some c =>
    have hc : (c.1 == i) = true := by simpa using List.find?_some hf
    have hr : rcOf st i = c.2.1 := by unfold rcOf; rw [hf]
    simp [Option.map, hc, hr]

theorem cacheHolds_adjust (st : St) (i : Nat) (f : Nat → Nat) (j : Nat) :
    cacheHolds (adjustRc st i f) j = cacheHolds st j := rfl

theorem ownsHolds_adjust (st : St) (i : Nat) (f : Nat → Nat) (j : Nat) :
    ownsHolds (adjustRc st i f) j = ownsHolds st j := by
  unfold ownsHolds
  rw [heap_adjust, List.map_map]
  congr 1
  apply List.map_congr_left
  intro c _
  by_cases hci : c.1 = i <;> simp [hci]

theorem marks_adjust (st : St) (i : Nat) (f : Nat → Nat) :
    (adjustRc st i f).marks = st.marks := rfl

theorem nextId_adjust (st : St) (i : Nat) (f : Nat → Nat) :
    (adjustRc st i f).nextId = st.nextId := rfl

theorem lt_nextId_of_rc_pos {st : St} {i : Nat} (hf : freshSt st) (h : 0 < rcOf st i) :
    i < st.nextId := by
  by_contra hge
  have := (hf i (by omega)).1
  omega

theorem fresh_adjust {st : St} (hf : freshSt st) (i : Nat) (f : Nat → Nat)
    (hi : i < st.nextId) : freshSt (adjustRc st i f) := by
  intro j hj
  rw [nextId_adjust] at hj
  have hne : j ≠ i := by omega
  rw [rcOf_adjust_ne st i f j hne, cacheHolds_adjust, ownsHolds_adjust]
  exact hf j hj

theorem wf_incr_pos {st : St} {roots : List Nat} {i : Nat}
    (h : wfSt st roots) (hp : 0 < rcOf st i) :
    wfSt (heapIncr st (some i)) (i :: roots) := by
  intro j
  simp only [heapIncr]
  rw [cacheHolds_adjust, ownsHolds_adjust]
  by_cases hji : j = i
  · subst hji
    rw [rcOf_adjust_self st j _ hp, h j, List.count_cons_self]
    omega
  · rw [rcOf_adjust_ne st i _ j hji, h j]
    have hcc : (i :: roots).count j = roots.count j := by simp [List.count_cons, hji]
    rw [hcc]

theorem wf_dropHead {st : St} {roots : List Nat} {i : Nat}
    (h : wfSt st (i :: roots)) :
    wfSt (heapDecr st (some i)) roots := by
  have hp : 0 < rcOf st i := by
    rw [h i, List.count_cons_self]; omega
  intro j
  simp only [heapDecr]
  rw [cacheHolds_adjust, ownsHolds_adjust]
  by_cases hji : j = i
  · subst hji
    rw [rcOf_adjust_self st j _ hp]
    have hh := h j
    rw [List.count_cons_self] at hh
    omega
  · rw [rcOf_adjust_ne st i _ j hji]
    have hh := h j
    have hcc : (i :: roots).count j = roots.count j := by simp [List.count_cons, hji]
    rw [hcc] at hh
    exact hh

theorem wf_marks (st : St) (m : List Nat) (roots : List Nat) :
    wfSt { st with marks := m } roots ↔ wfSt st roots := Iff.rfl

theorem fresh_marks (st : St) (m : List Nat) :
    freshSt { st with marks := m } ↔ freshSt st := Iff.rfl

theorem wf_congr {st : St} {roots roots' : List Nat}
    (hc : ∀ i, roots.count i = roots'.count i) (h : wfSt st roots) :
    wfSt st roots' := by
  intro i
  rw [h i, hc i]

theorem cacheHolds_pos_of_mem {st : St} {k i : Nat} {cs : CS}
    (hm : (k, cs) ∈ st.cache) (hid : csId cs = some i) :
    0 < cacheHolds st i := by
  unfold cacheHolds
  rw [List.length_pos]
  intro hemp
  have hmem : (k, cs) ∈ st.cache.filter (fun e => csId e.2 == some i) := by
    rw [List.mem_filter]
    exact ⟨hm, by simp [hid]⟩
  rw [hemp] at hmem
  simp at hmem

theorem wf_keep {st : St} {roots : List Nat} (cs : CS)
    (h : wfSt st roots) (hp : ∀ i, csId cs = some i → 0 < rcOf st i) :
    wfSt (heapIncr st (csId cs)) (pushRef cs roots) := by
  cases hid : csId cs with
  | none => simpa [heapIncr, pushRef, hid] using h
  | some i =>
    have := wf_incr_pos h (hp i hid)
    simpa [heapIncr, pushRef, hid] using this

theorem wf_dropCS {st : St} {roots : List Nat} (cs : CS)
    (h : wfSt st (pushRef cs roots)) :
    wfSt (fz_drop_colorspace st cs) roots := by
  cases hid : csId cs with
  | none =>
    rw [pushRef, hid] at h
    simpa [fz_drop_colorspace, heapDecr, hid] using h
  | some i =>
    rw [pushRef, hid] at h
    have := wf_dropHead h
    simpa [fz_drop_colorspace, heapDecr, hid] using this

theorem heap_alloc (st : St) (owns : List Nat) :
    (heapAlloc st owns).2.heap = (st.nextId, 1, owns) :: st.heap := rfl

theorem nextId_alloc (st : St) (owns : List Nat) :
    (heapAlloc st owns).2.nextId = st.nextId + 1 := rfl

theorem marks_alloc (st : St) (owns : List Nat) :
    (heapAlloc st owns).2.marks = st.marks := rfl

theorem fst_alloc (st : St) (owns : List Nat) :
    (heapAlloc st owns).1 = st.nextId := rfl

theorem rcOf_alloc (st : St) (owns : List Nat) (j : Nat) :
    rcOf (heapAlloc st owns).2 j = if j = st.nextId then 1 else rcOf st j := by
  by_cases hj : j = st.nextId
  · subst hj
    rw [if_pos rfl]
    unfold rcOf
    rw [heap_alloc, List.find?_cons_of_pos _ (by simp)]
  · rw [if_neg hj]
    unfold rcOf
    rw [heap_alloc, List.find?_cons_of_neg _ (by simp only [beq_iff_eq]; exact fun h => hj h.symm)]

theorem cacheHolds_alloc (st : St) (owns : List Nat) (j : Nat) :
    cacheHolds (heapAlloc st owns).2 j = cacheHolds st j := rfl

theorem ownsHolds_alloc (st : St) (owns : List Nat) (j : Nat) :
    ownsHolds (heapAlloc st owns).2 j = owns.count j + ownsHolds st j := by
  unfold ownsHolds
  rw [heap_alloc, List.map_cons, List.sum_cons]

theorem wf_alloc {st : St} {roots : List Nat} {owns : List Nat}
    (hf : freshSt st) (h : wfSt st (owns ++ roots)) :
    wfSt (heapAlloc st owns).2 (st.nextId :: roots) := by
  intro j
  rw [rcOf_alloc, cacheHolds_alloc, ownsHolds_alloc]
  have hwz := h j
  rw [List.count_append] at hwz
  by_cases hj : j = st.nextId
  · subst hj
    obtain ⟨h1, h2, h3⟩ := hf st.nextId (le_refl _)
    rw [if_pos rfl, List.count_cons_self]
    omega
  · rw [if_neg hj]
    have hcc : (st.nextId :: roots).count j = roots.count j := by
      simp [List.count_cons, hj]
    rw [hcc]
    omega

theorem fresh_alloc {st : St} {owns : List Nat}
    (hf : freshSt st) (hb : ∀ o ∈ owns, o < st.nextId) :
    freshSt (heapAlloc st owns).2 := by
  intro j hj
  rw [nextId_alloc] at hj
  have hjn : j ≠ st.nextId := by omega
  obtain ⟨h1, h2, h3⟩ := hf j (by omega)
  refine ⟨?_, ?_, ?_⟩
  · rw [rcOf_alloc, if_neg hjn]; exact h1
  · rw [cacheHolds_alloc]; exact h2
  · rw [ownsHolds_alloc, h3]
    have hz : owns.count j = 0 := by
      rw [List.count_eq_zero]
      intro hmem
      exact absurd (hb j hmem) (by omega)
    omega

theorem fresh_store {st : St} {o : Option Nat} {cs : CS}
    (hf : freshSt st) (hb : ∀ i, csId cs = some i → i < st.nextId) :
    freshSt (pdf_store_item st o cs) := by
  cases o with
  | none => simpa [pdf_store_item] using hf
  | some k =>
    show freshSt (heapIncr { st with cache := (k, cs) :: st.cache } (csId cs))
    have hf1 : freshSt { st with cache := (k, cs) :: st.cache } := by
      intro j hj
      have hj' : st.nextId ≤ j := hj
      obtain ⟨h1, h2, h3⟩ := hf j hj'
      refine ⟨h1, ?_, h3⟩
      show (((k, cs) :: st.cache).filter (fun e => csId e.2 == some j)).length = 0
      rw [List.filter_cons]
      have hne : ¬ ((csId cs == some j) = true) := by
        simp only [beq_iff_eq]
        intro hcs
        exact absurd (hb j hcs) (by omega)
      rw [if_neg hne]
      exact h2
    cases hid : csId cs with
    | none => simpa [heapIncr] using hf1
    | some i =>
      have hi : i < st.nextId := hb i hid
      have hres : freshSt (adjustRc { st with cache := (k, cs) :: st.cache } i (fun r => r + 1)) :=
        fresh_adjust hf1 i _ hi
      simpa [heapIncr] using hres

theorem cacheHolds_cons (st : St) (k : Nat) (cs : CS) (j : Nat) :
    cacheHolds { st with cache := (k, cs) :: st.cache } j
      = cacheHolds st j + (if csId cs = some j then 1 else 0) := by
  unfold cacheHolds
  show (((k, cs) :: st.cache).filter (fun e => csId e.2 == some j)).length = _
  rw [List.filter_cons]
  by_cases hcs : csId cs = some j
  · rw [if_pos (by simp [hcs]), if_pos hcs, List.length_cons]
  · rw [if_neg (by simp [hcs]), if_neg hcs]
    omega

theorem wf_store {st : St} {roots : List Nat} {k : Nat} {cs : CS}
    (h : wfSt st (pushRef cs roots)) :
    wfSt (pdf_store_item st (some k) cs) (pushRef cs roots) := by
  cases hid : csId cs with
  | none =>
    intro j
    simp only [pdf_store_item, hid, heapIncr]
    rw [cacheHolds_cons, hid, if_neg (by simp)]
    have howns : ownsHolds { st with cache := (k, cs) :: st.cache } j = ownsHolds st j := rfl
    have hrc : rcOf { st with cache := (k, cs) :: st.cache } j = rcOf st j := rfl
    rw [howns, hrc, h j]
    omega
  | some i =>
    have hp : 0 < rcOf st i := by
      rw [h i]
      simp only [pushRef, hid, List.count_cons_self]
      omega
    intro j
    simp only [pdf_store_item, hid, heapIncr]
    rw [cacheHolds_adjust, ownsHolds_adjust, cacheHolds_cons, hid]
    have howns : ownsHolds { st with cache := (k, cs) :: st.cache } j = ownsHolds st j := rfl
    rw [howns]
    have hrc' : rcOf { st with cache := (k, cs) :: st.cache } i = rcOf st i := rfl
    by_cases hji : j = i
    · subst hji
      rw [rcOf_adjust_self _ _ _ (by rw [hrc']; exact hp), hrc', if_pos rfl, h j]
      omega
    · rw [rcOf_adjust_ne _ _ _ _ hji, if_neg (fun hh => hji ((Option.some.inj hh).symm))]
      have hrc : rcOf { st with cache := (k, cs) :: st.cache } j = rcOf st j := rfl
      rw [hrc, h j]
      omega


/-! ### Per-call invariant: marks restored, freshness kept, references conserved -/

/-- Invariant of one resolver/builder call on state `st` producing `p`:
the recursion marks are restored, freshness is kept, and the reference-count
conservation law `wfSt` is preserved — with one extra caller-held reference on
the result in the success case. -/
def GoodCall (st : St) (p : Except Err CS × St) : Prop :=
  p.2.marks = st.marks ∧
  ∀ roots, freshSt st → wfSt st roots →
    freshSt p.2 ∧
    (∀ e, p.1 = .error e → wfSt p.2 roots) ∧
    (∀ cs, p.1 = .ok cs → wfSt p.2 (pushRef cs roots))

/-- A resolver satisfying the per-call invariant on every input. -/
def GoodR (R : St → Option Nat → Except Err CS × St) : Prop :=
  ∀ st obj, GoodCall st (R st obj)

/-- Unfolding of `GoodCall` at a literal pair. -/
theorem GoodCall_elim {st : St} {r : Except Err CS} {st' : St} (h : GoodCall st (r, st')) :
    st'.marks = st.marks ∧
    ∀ roots, freshSt st → wfSt st roots →
      freshSt st' ∧ (∀ e, r = .error e → wfSt st' roots) ∧
      (∀ cs, r = .ok cs → wfSt st' (pushRef cs roots)) := h

theorem GoodCall_err (st : St) (e : Err) : GoodCall st (.error e, st) := by
  refine ⟨rfl, ?_⟩
  intro roots hf hw
  exact ⟨hf, fun _ _ => hw, fun cs hcs => Except.noConfusion hcs⟩

theorem GoodCall_ok_dev (st : St) (k : DevKind) : GoodCall st (.ok (.device k), st) := by
  refine ⟨rfl, ?_⟩
  intro roots hf hw
  refine ⟨hf, fun e he => Except.noConfusion he, ?_⟩
  intro cs hcs
  have hcs' : CS.device k = cs := Except.ok.inj hcs
  subst hcs'
  simpa [pushRef, csId] using hw

theorem marks_dropCS (st : St) (cs : CS) : (fz_drop_colorspace st cs).marks = st.marks := by
  cases hid : csId cs with
  | none => simp [fz_drop_colorspace, heapDecr, hid]
  | some i => simp [fz_drop_colorspace, heapDecr, hid, marks_adjust]

theorem marks_decr (st : St) (o : Option Nat) : (heapDecr st o).marks = st.marks := by
  cases o with
  | none => rfl
  | some i => exact marks_adjust st i _

theorem marks_incr (st : St) (o : Option Nat) : (heapIncr st o).marks = st.marks := by
  cases o with
  | none => rfl
  | some i => exact marks_adjust st i _

theorem marks_store (st : St) (o : Option Nat) (cs : CS) :
    (pdf_store_item st o cs).marks = st.marks := by
  cases o with
  | none => rfl
  | some k =>
    show (heapIncr { st with cache := (k, cs) :: st.cache } (csId cs)).marks = st.marks
    rw [marks_incr]

theorem rc_pos_of_wf_pushRef {st : St} {roots : List Nat} {cs : CS} {i : Nat}
    (h : wfSt st (pushRef cs roots)) (hid : csId cs = some i) : 0 < rcOf st i := by
  have hh := h i
  simp only [pushRef, hid] at hh
  rw [hh, List.count_cons_self]
  omega

theorem id_lt_of_wf_pushRef {st : St} {roots : List Nat} {cs : CS} {i : Nat}
    (hf : freshSt st) (h : wfSt st (pushRef cs roots)) (hid : csId cs = some i) :
    i < st.nextId :=
  lt_nextId_of_rc_pos hf (rc_pos_of_wf_pushRef h hid)

theorem fresh_dropCS {st : St} {roots : List Nat} (hf : freshSt st) (cs : CS)
    (h : wfSt st (pushRef cs roots)) : freshSt (fz_drop_colorspace st cs) := by
  cases hid : csId cs with
  | none => simpa [fz_drop_colorspace, heapDecr, hid] using hf
  | some i =>
    have hi : i < st.nextId := id_lt_of_wf_pushRef hf h hid
    have := fresh_adjust hf i (fun r => r - 1) hi
    simpa [fz_drop_colorspace, heapDecr, hid] using this

theorem fresh_decr_pos {st : St} {i : Nat} (hf : freshSt st) (hp : 0 < rcOf st i) :
    freshSt (heapDecr st (some i)) := by
  have := fresh_adjust hf i (fun r => r - 1) (lt_nextId_of_rc_pos hf hp)
  simpa [heapDecr] using this

theorem fresh_keep {st : St} (hf : freshSt st) (cs : CS)
    (hp : ∀ i, csId cs = some i → 0 < rcOf st i) : freshSt (heapIncr st (csId cs)) := by
  cases hid : csId cs with
  | none => simpa [heapIncr, hid] using hf
  | some i =>
    have := fresh_adjust hf i (fun r => r + 1) (lt_nextId_of_rc_pos hf (hp i hid))
    simpa [heapIncr, hid] using this

theorem lookup_mem {α : Type} [DecidableEq α] {β : Type} {l : List (α × β)} {k : α} {v : β}
    (h : l.lookup k = some v) : (k, v) ∈ l := by
  induction l with
  | nil => simp [List.lookup] at h
  | cons c l ih =>
    rcases c with ⟨ck, cv⟩
    rw [List.lookup] at h
    by_cases hk : k = ck
    · have hb : (k == ck) = true := by simpa using hk
      rw [hb] at h
      have hv : cv = v := by simpa using h
      rw [hk, ← hv]
      exact List.mem_cons_self _ _
    · have hb : (k == ck) = false := by simpa using hk
      rw [hb] at h
      exact List.mem_cons_of_mem _ (ih h)

/-- The `load_icc_based` result state in the fallback case. -/
theorem icc_fallback_snd (n : Int) (st : St) : (icc_fallback n st).2 = st := by
  unfold icc_fallback
  by_cases h1 : n = 1 <;> by_cases h3 : n = 3 <;> by_cases h4 : n = 4 <;>
    simp [h1, h3, h4]

theorem icc_fallback_ok_dev (n : Int) (st : St) {cs : CS}
    (h : (icc_fallback n st).1 = .ok cs) : csId cs = none := by
  unfold icc_fallback at h
  by_cases h1 : n = 1 <;> by_cases h3 : n = 3 <;> by_cases h4 : n = 4 <;>
    simp [h1, h3, h4] at h <;> simp [← h, csId]

theorem GoodCall_fallback (st : St) (n : Int) : GoodCall st (icc_fallback n st) := by
  unfold icc_fallback
  by_cases h1 : n = 1
  · simpa [h1] using GoodCall_ok_dev st .gray
  · by_cases h3 : n = 3
    · simpa [h1, h3] using GoodCall_ok_dev st .rgb
    · by_cases h4 : n = 4
      · simpa [h1, h3, h4] using GoodCall_ok_dev st .cmyk
      · simpa [h1, h3, h4] using GoodCall_err st .iccBadN

theorem icc_good {R : St → Option Nat → Except Err CS × St} (hR : GoodR R) (d : Doc) :
    GoodR (load_icc_based R d) := by
  intro st dictObj
  rcases hA : pdf_dict_get d dictObj "Alternate" with _ | a
  · have heq : load_icc_based R d st dictObj
        = icc_fallback (pdf_to_int d (pdf_dict_get d dictObj "N")) st := by
      simp only [load_icc_based, hA]
    rw [heq]
    exact GoodCall_fallback st _
  · rcases hRa : R st (some a) with ⟨r1, st1⟩
    obtain ⟨hm1, hin1⟩ := hR st (some a)
    rw [hRa] at hm1 hin1
    cases r1 with
    | error e =>
      have heq : load_icc_based R d st dictObj
          = icc_fallback (pdf_to_int d (pdf_dict_get d dictObj "N")) st1 := by
        simp only [load_icc_based, hA, hRa]
      rw [heq]
      obtain ⟨hmf, hinf⟩ := GoodCall_fallback st1 (pdf_to_int d (pdf_dict_get d dictObj "N"))
      refine ⟨by rw [hmf]; exact hm1, ?_⟩
      intro roots hf hw
      obtain ⟨hfr1, herr1, _⟩ := hin1 roots hf hw
      have hw1 : wfSt st1 roots := herr1 e rfl
      exact hinf roots hfr1 hw1
    | ok cs_alt =>
      by_cases hne : (csN cs_alt : Int) ≠ pdf_to_int d (pdf_dict_get d dictObj "N")
      · have heq : load_icc_based R d st dictObj
            = icc_fallback (pdf_to_int d (pdf_dict_get d dictObj "N"))
                (fz_drop_colorspace st1 cs_alt) := by
          simp only [load_icc_based, hA, hRa]
          rw [if_pos hne]
        rw [heq]
        obtain ⟨hmf, hinf⟩ :=
          GoodCall_fallback (fz_drop_colorspace st1 cs_alt)
            (pdf_to_int d (pdf_dict_get d dictObj "N"))
        refine ⟨by rw [hmf, marks_dropCS]; exact hm1, ?_⟩
        intro roots hf hw
        obtain ⟨hfr1, _, hok1⟩ := hin1 roots hf hw
        have hw1 : wfSt st1 (pushRef cs_alt roots) := hok1 cs_alt rfl
        have hwd : wfSt (fz_drop_colorspace st1 cs_alt) roots := wf_dropCS cs_alt hw1
        have hfd : freshSt (fz_drop_colorspace st1 cs_alt) := fresh_dropCS hfr1 cs_alt hw1
        exact hinf roots hfd hwd
      · have heq : load_icc_based R d st dictObj = (.ok cs_alt, st1) := by
          simp only [load_icc_based, hA, hRa]
          rw [if_neg hne]
        rw [heq]
        refine ⟨hm1, ?_⟩
        intro roots hf hw
        obtain ⟨hfr1, _, hok1⟩ := hin1 roots hf hw
        refine ⟨hfr1, fun e he => Except.noConfusion he, ?_⟩
        intro cs hcs
        have hcs' : cs_alt = cs := Except.ok.inj hcs
        subst hcs'
        exact hok1 cs_alt rfl

theorem sep_good {R : St → Option Nat → Except Err CS × St} (hR : GoodR R) (d : Doc) :
    GoodR (load_separation R d) := by
  intro st obj
  by_cases hn :
      (if pdf_is_array d (pdf_array_get d obj 1) then pdf_array_len d (pdf_array_get d obj 1) else 1)
        > FZ_MAX_COLORS
  · have heq : load_separation R d st obj = (.error .tooManyComponents, st) := by
      simp only [load_separation]
      rw [if_pos hn]
    rw [heq]
    exact GoodCall_err st .tooManyComponents
  · rcases hRb : R st (pdf_array_get d obj 2) with ⟨rb, st1⟩
    have hg := hR st (pdf_array_get d obj 2)
    rw [hRb] at hg
    obtain ⟨hm1, hin1⟩ := GoodCall_elim hg
    cases rb with
    | error e =>
      have heq : load_separation R d st obj = (.error e, st1) := by
        simp only [load_separation, hRb]
        rw [if_neg hn]
      rw [heq]
      refine ⟨hm1, ?_⟩
      intro roots hf hw
      obtain ⟨hfr1, herr1, _⟩ := hin1 roots hf hw
      exact ⟨hfr1, fun e' he' => by cases he'; exact herr1 e rfl,
        fun cs hcs => Except.noConfusion hcs⟩
    | ok base =>
      by_cases hok : d.funcOk (pdf_array_get d obj 3)
          (if pdf_is_array d (pdf_array_get d obj 1) then pdf_array_len d (pdf_array_get d obj 1) else 1)
          (csN base)
      · have heq : load_separation R d st obj
            = (.ok (.sepcs (heapAlloc (heapAlloc st1 []).2 ((csId base).toList ++ [(heapAlloc st1 []).1])).1
                (if (if pdf_is_array d (pdf_array_get d obj 1) then pdf_array_len d (pdf_array_get d obj 1) else 1) == 1
                  then "Separation" else "DeviceN")
                (if pdf_is_array d (pdf_array_get d obj 1) then pdf_array_len d (pdf_array_get d obj 1) else 1)
                base (heapAlloc st1 []).1),
              (heapAlloc (heapAlloc st1 []).2 ((csId base).toList ++ [(heapAlloc st1 []).1])).2) := by
          simp only [load_separation, hRb]
          rw [if_neg hn, if_pos hok]
        rw [heq]
        refine ⟨by rw [marks_alloc, marks_alloc]; exact hm1, ?_⟩
        intro roots hf hw
        obtain ⟨hfr1, _, hok1⟩ := hin1 roots hf hw
        have hw1 : wfSt st1 (pushRef base roots) := hok1 base rfl
        have hwA : wfSt (heapAlloc st1 []).2 (st1.nextId :: pushRef base roots) :=
          wf_alloc hfr1 (by simpa using hw1)
        have hfA : freshSt (heapAlloc st1 []).2 :=
          fresh_alloc hfr1 (by intro o ho; exact absurd ho (List.not_mem_nil o))
        have hbound : ∀ o ∈ (csId base).toList ++ [(heapAlloc st1 []).1],
            o < (heapAlloc st1 []).2.nextId := by
          intro o ho
          rw [nextId_alloc]
          rw [List.mem_append] at ho
          rcases ho with ho | ho
          · cases hid : csId base with
            | none => rw [hid] at ho; simp at ho
            | some b =>
              rw [hid] at ho
              simp at ho
              subst ho
              have := id_lt_of_wf_pushRef hfr1 hw1 hid
              omega
          · simp at ho
            rw [ho, fst_alloc]
            omega
        have hwB : wfSt (heapAlloc st1 []).2
            (((csId base).toList ++ [(heapAlloc st1 []).1]) ++ roots) := by
          refine wf_congr ?_ hwA
          intro i
          rw [fst_alloc]
          cases hid : csId base with
          | none => simp [pushRef, hid, List.count_cons, List.count_append]
          | some b =>
            simp [pushRef, hid, List.count_cons, List.count_append]
            omega
        have hwC := wf_alloc hfA hwB
        have hfC := fresh_alloc hfA hbound
        refine ⟨hfC, fun e he => Except.noConfusion he, ?_⟩
        intro cs hcs
        have hcs' := Except.ok.inj hcs
        subst hcs'
        simpa [pushRef, csId, fst_alloc] using hwC
      · have heq : load_separation R d st obj = (.error .funcLoadFail, fz_drop_colorspace st1 base) := by
          simp only [load_separation, hRb]
          rw [if_neg hn, if_neg hok]
        rw [heq]
        refine ⟨by rw [marks_dropCS]; exact hm1, ?_⟩
        intro roots hf hw
        obtain ⟨hfr1, _, hok1⟩ := hin1 roots hf hw
        have hw1 : wfSt st1 (pushRef base roots) := hok1 base rfl
        exact ⟨fresh_dropCS hfr1 base hw1,
          fun e he => wf_dropCS base hw1,
          fun cs hcs => Except.noConfusion hcs⟩


theorem openclose_wf {s : St} {roots : List Nat} (hf : freshSt s) (hw : wfSt s roots) :
    wfSt (heapDecr (heapAlloc s []).2 (some (heapAlloc s []).1)) roots ∧
    freshSt (heapDecr (heapAlloc s []).2 (some (heapAlloc s []).1)) := by
  have hwA : wfSt (heapAlloc s []).2 (s.nextId :: roots) := wf_alloc hf (by simpa using hw)
  have hfA : freshSt (heapAlloc s []).2 :=
    fresh_alloc hf (by intro o ho; exact absurd ho (List.not_mem_nil o))
  have hp : 0 < rcOf (heapAlloc s []).2 s.nextId := by
    rw [hwA s.nextId, List.count_cons_self]; omega
  rw [fst_alloc]
  exact ⟨wf_dropHead hwA, fresh_decr_pos hfA hp⟩

theorem mkcs_wf {s : St} {roots : List Nat} {base : CS} {L : Nat} (hf : freshSt s)
    (hw : wfSt s (L :: pushRef base roots)) (hL : L < s.nextId) :
    wfSt (heapAlloc s ((csId base).toList ++ [L])).2 (s.nextId :: roots) ∧
    freshSt (heapAlloc s ((csId base).toList ++ [L])).2 := by
  have hwB : wfSt s (((csId base).toList ++ [L]) ++ roots) := by
    refine wf_congr ?_ hw
    intro i
    cases hid : csId base with
    | none => simp [pushRef, hid, List.count_cons, List.count_append]
    | some b =>
      simp [pushRef, hid, List.count_cons, List.count_append]
      omega
  have hbound : ∀ o ∈ (csId base).toList ++ [L], o < s.nextId := by
    intro o ho
    rw [List.mem_append] at ho
    rcases ho with ho | ho
    · cases hid : csId base with
      | none => rw [hid] at ho; simp at ho
      | some b =>
        rw [hid] at ho
        simp at ho
        rw [ho]
        have hp : 0 < rcOf s b := by
          have hh := hw b
          simp only [pushRef, hid] at hh
          rw [hh]
          have hcnt : 0 < (L :: b :: roots).count b :=
            List.count_pos_iff.mpr (by simp)
          omega
        exact lt_nextId_of_rc_pos hf hp
    · simp at ho
      subst ho
      exact hL
  exact ⟨wf_alloc hf hwB, fresh_alloc hf hbound⟩

theorem dropBoth_wf {s : St} {roots : List Nat} {base : CS} {L : Nat}
    (hf : freshSt s) (hw : wfSt s (L :: pushRef base roots)) :
    wfSt (heapDecr (fz_drop_colorspace s base) (some L)) roots ∧
    freshSt (heapDecr (fz_drop_colorspace s base) (some L)) := by
  have hswap : wfSt s (pushRef base (L :: roots)) := by
    refine wf_congr ?_ hw
    intro i
    cases hid : csId base with
    | none => simp [pushRef, hid]
    | some b =>
      simp [pushRef, hid, List.count_cons]
      omega
  have hwd : wfSt (fz_drop_colorspace s base) (L :: roots) := wf_dropCS base hswap
  have hfd : freshSt (fz_drop_colorspace s base) := fresh_dropCS hf base hswap
  have hp : 0 < rcOf (fz_drop_colorspace s base) L := by
    rw [hwd L, List.count_cons_self]; omega
  exact ⟨wf_dropHead hwd, fresh_decr_pos hfd hp⟩

theorem idx_good {R : St → Option Nat → Except Err CS × St} (hR : GoodR R) (d : Doc) :
    GoodR (load_indexed R d) := by
  intro st obj
  rcases hRb : R st (pdf_array_get d obj 1) with ⟨rb, st1⟩
  have hg := hR st (pdf_array_get d obj 1)
  rw [hRb] at hg
  obtain ⟨hm1, hin1⟩ := GoodCall_elim hg
  cases rb with
  | error e =>
    have heq : load_indexed R d st obj = (.error e, st1) := by
      simp only [load_indexed, hRb]
    rw [heq]
    refine ⟨hm1, ?_⟩
    intro roots hf hw
    obtain ⟨hfr1, herr1, _⟩ := hin1 roots hf hw
    exact ⟨hfr1, fun e' he' => by cases he'; exact herr1 e rfl,
      fun cs hcs => Except.noConfusion hcs⟩
  | ok base =>
    by_cases hstr : (pdf_is_string d (pdf_array_get d obj 3) ∧ pdf_to_str_len d (pdf_array_get d obj 3)
        ≥ csN base * ((fz_clampi (pdf_to_int d (pdf_array_get d obj 2)) 0 255).toNat + 1))
    · have heq : load_indexed R d st obj
          = (.ok (.indexed
                (heapAlloc (heapAlloc st1 []).2 ((csId base).toList ++ [(heapAlloc st1 []).1])).1
                base
                ((fz_clampi (pdf_to_int d (pdf_array_get d obj 2)) 0 255).toNat)
                (heapAlloc st1 []).1
                ((pdf_to_str_bytes d (pdf_array_get d obj 3)).take
                  (csN base * ((fz_clampi (pdf_to_int d (pdf_array_get d obj 2)) 0 255).toNat + 1)))),
              (heapAlloc (heapAlloc st1 []).2 ((csId base).toList ++ [(heapAlloc st1 []).1])).2) := by
        simp only [load_indexed, hRb]
        rw [if_pos hstr]
      rw [heq]
      refine ⟨by simp only [marks_alloc]; exact hm1, ?_⟩
      intro roots hf hw
      obtain ⟨hfr1, _, hok1⟩ := hin1 roots hf hw
      have hw1 : wfSt st1 (pushRef base roots) := hok1 base rfl
      have hwA : wfSt (heapAlloc st1 []).2 (st1.nextId :: pushRef base roots) :=
        wf_alloc hfr1 (by simpa using hw1)
      have hfA : freshSt (heapAlloc st1 []).2 :=
        fresh_alloc hfr1 (by intro o ho; exact absurd ho (List.not_mem_nil o))
      have hL : st1.nextId < (heapAlloc st1 []).2.nextId := by
        rw [nextId_alloc]; omega
      obtain ⟨hwC, hfC⟩ := mkcs_wf hfA hwA hL
      refine ⟨hfC, fun e he => Except.noConfusion he, ?_⟩
      intro cs hcs
      have hcs' := Except.ok.inj hcs
      subst hcs'
      simpa [pushRef, csId, fst_alloc] using hwC
    · by_cases hind : pdf_is_indirect d (pdf_array_get d obj 3)
      · cases hs : d.streams (refTarget d (pdf_array_get d obj 3)) with
        | openFail =>
          have heq : load_indexed R d st obj
              = (.error .streamOpenFail,
                  heapDecr (fz_drop_colorspace (heapAlloc st1 []).2 base)
                    (some (heapAlloc st1 []).1)) := by
            simp only [load_indexed, hRb]
            rw [if_neg hstr, if_pos hind, hs]
          rw [heq]
          refine ⟨by simp only [marks_decr, marks_dropCS, marks_alloc]; exact hm1, ?_⟩
          intro roots hf hw
          obtain ⟨hfr1, _, hok1⟩ := hin1 roots hf hw
          have hw1 : wfSt st1 (pushRef base roots) := hok1 base rfl
          have hwA : wfSt (heapAlloc st1 []).2 (st1.nextId :: pushRef base roots) :=
            wf_alloc hfr1 (by simpa using hw1)
          have hfA : freshSt (heapAlloc st1 []).2 :=
            fresh_alloc hfr1 (by intro o ho; exact absurd ho (List.not_mem_nil o))
          obtain ⟨hwD, hfD⟩ := dropBoth_wf hfA hwA
          exact ⟨hfD, fun e he => hwD,
            fun cs hcs => Except.noConfusion hcs⟩
        | readFail =>
          have heq : load_indexed R d st obj
              = (.error .streamReadFail,
                  heapDecr (fz_drop_colorspace
                    (heapDecr (heapAlloc (heapAlloc st1 []).2 []).2
                      (some (heapAlloc (heapAlloc st1 []).2 []).1)) base)
                    (some (heapAlloc st1 []).1)) := by
            simp only [load_indexed, hRb]
            rw [if_neg hstr, if_pos hind, hs]
          rw [heq]
          refine ⟨by simp only [marks_decr, marks_dropCS, marks_alloc]; exact hm1, ?_⟩
          intro roots hf hw
          obtain ⟨hfr1, _, hok1⟩ := hin1 roots hf hw
          have hw1 : wfSt st1 (pushRef base roots) := hok1 base rfl
          have hwA : wfSt (heapAlloc st1 []).2 (st1.nextId :: pushRef base roots) :=
            wf_alloc hfr1 (by simpa using hw1)
          have hfA : freshSt (heapAlloc st1 []).2 :=
            fresh_alloc hfr1 (by intro o ho; exact absurd ho (List.not_mem_nil o))
          obtain ⟨hw4, hf4⟩ := openclose_wf hfA hwA
          obtain ⟨hwD, hfD⟩ := dropBoth_wf hf4 hw4
          exact ⟨hfD, fun e he => hwD,
            fun cs hcs => Except.noConfusion hcs⟩
        | ok bytes =>
          have heq : load_indexed R d st obj
              = (.ok (.indexed
                    (heapAlloc
                      (heapDecr (heapAlloc (heapAlloc st1 []).2 []).2
                        (some (heapAlloc (heapAlloc st1 []).2 []).1))
                      ((csId base).toList ++ [(heapAlloc st1 []).1])).1
                    base
                    ((fz_clampi (pdf_to_int d (pdf_array_get d obj 2)) 0 255).toNat)
                    (heapAlloc st1 []).1
                    (bytes.take (csN base * ((fz_clampi (pdf_to_int d (pdf_array_get d obj 2)) 0 255).toNat + 1))
                      ++ List.replicate
                        (csN base * ((fz_clampi (pdf_to_int d (pdf_array_get d obj 2)) 0 255).toNat + 1)
                          - min bytes.length
                            (csN base * ((fz_clampi (pdf_to_int d (pdf_array_get d obj 2)) 0 255).toNat + 1))) 0)),
                  (heapAlloc
                    (heapDecr (heapAlloc (heapAlloc st1 []).2 []).2
                      (some (heapAlloc (heapAlloc st1 []).2 []).1))
                    ((csId base).toList ++ [(heapAlloc st1 []).1])).2) := by
            simp only [load_indexed, hRb]
            rw [if_neg hstr, if_pos hind, hs]
          rw [heq]
          refine ⟨by simp only [marks_alloc, marks_decr]; exact hm1, ?_⟩
          intro roots hf hw
          obtain ⟨hfr1, _, hok1⟩ := hin1 roots hf hw
          have hw1 : wfSt st1 (pushRef base roots) := hok1 base rfl
          have hwA : wfSt (heapAlloc st1 []).2 (st1.nextId :: pushRef base roots) :=
            wf_alloc hfr1 (by simpa using hw1)
          have hfA : freshSt (heapAlloc st1 []).2 :=
            fresh_alloc hfr1 (by intro o ho; exact absurd ho (List.not_mem_nil o))
          obtain ⟨hw4, hf4⟩ := openclose_wf hfA hwA
          have hn4 : (heapDecr (heapAlloc (heapAlloc st1 []).2 []).2
              (some (heapAlloc (heapAlloc st1 []).2 []).1)).nextId = st1.nextId + 2 := rfl
          have hL : st1.nextId < (heapDecr (heapAlloc (heapAlloc st1 []).2 []).2
              (some (heapAlloc (heapAlloc st1 []).2 []).1)).nextId := by
            rw [hn4]; omega
          obtain ⟨hwC, hfC⟩ := mkcs_wf hf4 hw4 hL
          refine ⟨hfC, fun e he => Except.noConfusion he, ?_⟩
          intro cs hcs
          have hcs' := Except.ok.inj hcs
          subst hcs'
          simpa [pushRef, csId, fst_alloc] using hwC
      · have heq : load_indexed R d st obj
            = (.error .badLookup,
                heapDecr (fz_drop_colorspace (heapAlloc st1 []).2 base)
                  (some (heapAlloc st1 []).1)) := by
          simp only [load_indexed, hRb]
          rw [if_neg hstr, if_neg hind]
        rw [heq]
        refine ⟨by simp only [marks_decr, marks_dropCS, marks_alloc]; exact hm1, ?_⟩
        intro roots hf hw
        obtain ⟨hfr1, _, hok1⟩ := hin1 roots hf hw
        have hw1 : wfSt st1 (pushRef base roots) := hok1 base rfl
        have hwA : wfSt (heapAlloc st1 []).2 (st1.nextId :: pushRef base roots) :=
          wf_alloc hfr1 (by simpa using hw1)
        have hfA : freshSt (heapAlloc st1 []).2 :=
          fresh_alloc hfr1 (by intro o ho; exact absurd ho (List.not_mem_nil o))
        obtain ⟨hwD, hfD⟩ := dropBoth_wf hfA hwA
        exact ⟨hfD, fun e he => hwD,
          fun cs hcs => Except.noConfusion hcs⟩


theorem wf_markObj (d : Doc) (st : St) (o : Option Nat) (roots : List Nat) :
    wfSt (pdf_mark_obj d st o) roots ↔ wfSt st roots := by
  cases hres : resId d o with
  | none => simp only [pdf_mark_obj, hres]
  | some i =>
    simp only [pdf_mark_obj, hres]
    exact wf_marks st _ roots

theorem fresh_markObj (d : Doc) (st : St) (o : Option Nat) :
    freshSt (pdf_mark_obj d st o) ↔ freshSt st := by
  cases hres : resId d o with
  | none => simp only [pdf_mark_obj, hres]
  | some i =>
    simp only [pdf_mark_obj, hres]
    exact fresh_marks st _

theorem wf_unmarkObj (d : Doc) (st : St) (o : Option Nat) (roots : List Nat) :
    wfSt (pdf_unmark_obj d st o) roots ↔ wfSt st roots := by
  cases hres : resId d o with
  | none => simp only [pdf_unmark_obj, hres]
  | some i =>
    simp only [pdf_unmark_obj, hres]
    exact wf_marks st _ roots

theorem fresh_unmarkObj (d : Doc) (st : St) (o : Option Nat) :
    freshSt (pdf_unmark_obj d st o) ↔ freshSt st := by
  cases hres : resId d o with
  | none => simp only [pdf_unmark_obj, hres]
  | some i =>
    simp only [pdf_unmark_obj, hres]
    exact fresh_marks st _

theorem marks_unmark_mark (d : Doc) (st : St) (o : Option Nat) (st2 : St)
    (hm : st2.marks = (pdf_mark_obj d st o).marks) :
    (pdf_unmark_obj d st2 o).marks = st.marks := by
  cases hres : resId d o with
  | none =>
    simp only [pdf_unmark_obj, hres]
    rw [hm]
    simp only [pdf_mark_obj, hres]
  | some i =>
    simp only [pdf_unmark_obj, hres]
    show st2.marks.erase i = st.marks
    simp only [pdf_mark_obj, hres] at hm
    rw [hm]
    exact List.erase_cons_head i st.marks

/-- Invariant transport through the deep-family wrapper of the resolver:
mark the descriptor, run the builder, unmark on exit. -/
theorem GoodCall_deep {st : St} {d : Doc} {obj : Option Nat} {p : Except Err CS × St}
    (hp : GoodCall (pdf_mark_obj d st obj) p) :
    GoodCall st (p.1, pdf_unmark_obj d p.2 obj) := by
  obtain ⟨hm, hin⟩ := hp
  refine ⟨marks_unmark_mark d st obj p.2 hm, ?_⟩
  intro roots hf hw
  have hf' : freshSt (pdf_mark_obj d st obj) := (fresh_markObj d st obj).mpr hf
  have hw' : wfSt (pdf_mark_obj d st obj) roots := (wf_markObj d st obj roots).mpr hw
  obtain ⟨hfp, herr, hok⟩ := hin roots hf' hw'
  exact ⟨(fresh_unmarkObj d p.2 obj).mpr hfp,
    fun e he => (wf_unmarkObj d p.2 obj roots).mpr (herr e he),
    fun cs hcs => (wf_unmarkObj d p.2 obj (pushRef cs roots)).mpr (hok cs hcs)⟩

set_option maxHeartbeats 1600000 in
theorem imp_good {R : St → Option Nat → Except Err CS × St} (hR : GoodR R) (d : Doc) :
    GoodR (pdf_load_colorspace_imp R d) := by
  intro st obj
  by_cases hmk : pdf_obj_marked d st obj
  · have heq : pdf_load_colorspace_imp R d st obj = (.error .recursion, st) := by
      simp only [pdf_load_colorspace_imp]
      rw [if_pos hmk]
    rw [heq]
    exact GoodCall_err st .recursion
  · simp only [pdf_load_colorspace_imp]
    rw [if_neg hmk]
    split
    · -- bare-name branch
      rename_i s heq
      by_cases e0 : s = "Pattern"
      · rw [if_pos e0]; exact GoodCall_ok_dev st .gray
      rw [if_neg e0]
      by_cases e1 : s = "G"
      · rw [if_pos e1]; exact GoodCall_ok_dev st .gray
      rw [if_neg e1]
      by_cases e2 : s = "RGB"
      · rw [if_pos e2]; exact GoodCall_ok_dev st .rgb
      rw [if_neg e2]
      by_cases e3 : s = "CMYK"
      · rw [if_pos e3]; exact GoodCall_ok_dev st .cmyk
      rw [if_neg e3]
      by_cases e4 : s = "DeviceGray"
      · rw [if_pos e4]; exact GoodCall_ok_dev st .gray
      rw [if_neg e4]
      by_cases e5 : s = "DeviceRGB"
      · rw [if_pos e5]; exact GoodCall_ok_dev st .rgb
      rw [if_neg e5]
      by_cases e6 : s = "DeviceCMYK"
      · rw [if_pos e6]; exact GoodCall_ok_dev st .cmyk
      rw [if_neg e6]
      exact GoodCall_err st _
    · split
      · -- array with name head
        rename_i s heq
        by_cases a0 : s = "G"
        · rw [if_pos a0]; exact GoodCall_ok_dev st .gray
        rw [if_neg a0]
        by_cases a1 : s = "RGB"
        · rw [if_pos a1]; exact GoodCall_ok_dev st .rgb
        rw [if_neg a1]
        by_cases a2 : s = "CMYK"
        · rw [if_pos a2]; exact GoodCall_ok_dev st .cmyk
        rw [if_neg a2]
        by_cases a3 : s = "DeviceGray"
        · rw [if_pos a3]; exact GoodCall_ok_dev st .gray
        rw [if_neg a3]
        by_cases a4 : s = "DeviceRGB"
        · rw [if_pos a4]; exact GoodCall_ok_dev st .rgb
        rw [if_neg a4]
        by_cases a5 : s = "DeviceCMYK"
        · rw [if_pos a5]; exact GoodCall_ok_dev st .cmyk
        rw [if_neg a5]
        by_cases a6 : s = "CalGray"
        · rw [if_pos a6]; exact GoodCall_ok_dev st .gray
        rw [if_neg a6]
        by_cases a7 : s = "CalRGB"
        · rw [if_pos a7]; exact GoodCall_ok_dev st .rgb
        rw [if_neg a7]
        by_cases a8 : s = "CalCMYK"
        · rw [if_pos a8]; exact GoodCall_ok_dev st .cmyk
        rw [if_neg a8]
        by_cases a9 : s = "Lab"
        · rw [if_pos a9]; exact GoodCall_ok_dev st .lab
        rw [if_neg a9]
        refine GoodCall_deep ?_
        by_cases f0 : s = "ICCBased"
        · rw [if_pos f0]; exact icc_good hR d _ _
        rw [if_neg f0]
        by_cases f1 : s = "Indexed"
        · rw [if_pos f1]; exact idx_good hR d _ _
        rw [if_neg f1]
        by_cases f2 : s = "I"
        · rw [if_pos f2]; exact idx_good hR d _ _
        rw [if_neg f2]
        by_cases f3 : s = "Separation"
        · rw [if_pos f3]; exact sep_good hR d _ _
        rw [if_neg f3]
        by_cases f4 : s = "DeviceN"
        · rw [if_pos f4]; exact sep_good hR d _ _
        rw [if_neg f4]
        by_cases f9 : s = "Pattern"
        · rw [if_pos f9]
          cases hp1 : pdf_array_get d obj 1 with
          | none => exact GoodCall_ok_dev _ .gray
          | some p => exact hR _ _
        rw [if_neg f9]
        exact GoodCall_err _ _
      · exact GoodCall_err st .badDescriptor
    · exact GoodCall_err st .badDescriptor


/-- The fueled resolver `pdf_load_colorspace` restores the recursion marks and
preserves the reference-count conservation law on every call — the master
invariant, proved by induction on the fuel through all builders. -/
theorem load_good (f : Nat) (d : Doc) :
    GoodR (fun st obj => pdf_load_colorspace f d st obj) := by
  induction f with
  | zero =>
    intro st obj
    exact GoodCall_err st .fuelOut
  | succ f ih =>
    intro st obj
    show GoodCall st (pdf_load_colorspace (f + 1) d st obj)
    cases hfind : pdf_find_item st obj with
    | some cs =>
      have heq : pdf_load_colorspace (f + 1) d st obj = (.ok cs, heapIncr st (csId cs)) := by
        simp only [pdf_load_colorspace, hfind]
      rw [heq]
      refine ⟨marks_incr st (csId cs), ?_⟩
      intro roots hf hw
      have hp : ∀ i, csId cs = some i → 0 < rcOf st i := by
        intro i hid
        cases obj with
        | none => simp [pdf_find_item] at hfind
        | some k =>
          have hmem : (k, cs) ∈ st.cache := lookup_mem (by simpa [pdf_find_item] using hfind)
          have hc := cacheHolds_pos_of_mem hmem hid
          rw [hw i]
          omega
      exact ⟨fresh_keep hf cs hp, fun e he => Except.noConfusion he,
        fun cs' hcs => by cases Except.ok.inj hcs; exact wf_keep cs hw hp⟩
    | none =>
      rcases himp : pdf_load_colorspace_imp (fun st2 o2 => pdf_load_colorspace f d st2 o2) d st obj
        with ⟨r1, st1⟩
      have hg := imp_good ih d st obj
      rw [himp] at hg
      obtain ⟨hm1, hin1⟩ := GoodCall_elim hg
      cases r1 with
      | error e =>
        have heq : pdf_load_colorspace (f + 1) d st obj = (.error e, st1) := by
          simp only [pdf_load_colorspace, hfind, himp]
        rw [heq]
        refine ⟨hm1, ?_⟩
        intro roots hf hw
        obtain ⟨hfr1, herr1, _⟩ := hin1 roots hf hw
        exact ⟨hfr1, fun e' he' => by cases he'; exact herr1 e rfl,
          fun cs hcs => Except.noConfusion hcs⟩
      | ok cs =>
        have heq : pdf_load_colorspace (f + 1) d st obj = (.ok cs, pdf_store_item st1 obj cs) := by
          simp only [pdf_load_colorspace, hfind, himp]
        rw [heq]
        refine ⟨by rw [marks_store]; exact hm1, ?_⟩
        intro roots hf hw
        obtain ⟨hfr1, _, hok1⟩ := hin1 roots hf hw
        have hw1 : wfSt st1 (pushRef cs roots) := hok1 cs rfl
        cases obj with
        | none =>
          exact ⟨by simpa [pdf_store_item] using hfr1, fun e he => Except.noConfusion he,
            fun cs' hcs => by cases Except.ok.inj hcs; simpa [pdf_store_item] using hw1⟩
        | some k =>
          have hbd : ∀ i, csId cs = some i → i < st1.nextId := fun i hid =>
            id_lt_of_wf_pushRef hfr1 hw1 hid
          exact ⟨fresh_store hfr1 hbd, fun e he => Except.noConfusion he,
            fun cs' hcs => by cases Except.ok.inj hcs; exact wf_store hw1⟩


/-! ### Concrete documents used as test inputs -/

/-- The empty session state. -/
def st0 : St := ⟨[], [], [], 0⟩

/-- A document whose descriptor 1 is the bare name `/DeviceRGB`. -/
def dName : Doc := ⟨[(1, .name "DeviceRGB")], fun _ _ _ => false, fun _ => .openFail⟩

/-- A document whose descriptor 1 is the bare name `/CalGray`. -/
def dCal : Doc := ⟨[(1, .name "CalGray")], fun _ _ _ => false, fun _ => .openFail⟩

/-- A document whose descriptor 1 is the direct-alias array `[/CalRGB 7]`. -/
def dAlias : Doc :=
  ⟨[(1, .array [2, 3]), (2, .name "CalRGB"), (3, .int 7)], fun _ _ _ => false, fun _ => .openFail⟩

/-- A cyclic Indexed descriptor: object 1 is `[/Indexed 1 0 R 1 (…)]`, whose
base is an indirect reference back to object 1 itself. -/
def dCyc : Doc :=
  ⟨[(1, .array [2, 3, 4, 5]), (2, .name "Indexed"), (3, .ref 1), (4, .int 1),
    (5, .string [1, 2, 3, 4])], fun _ _ _ => false, fun _ => .openFail⟩

/-- A cyclic Separation descriptor: object 1 is `[/Separation /Ink 1 0 R t]`,
whose base refers back to object 1. -/
def dCycSep : Doc :=
  ⟨[(1, .array [2, 3, 4, 5]), (2, .name "Separation"), (3, .name "Ink"), (4, .ref 1),
    (5, .null)], fun _ _ _ => true, fun _ => .openFail⟩

/-- A document whose descriptor 1 is `["Bogus"]` — an array with an unknown
family name. -/
def dBogus : Doc := ⟨[(1, .array [2]), (2, .name "Bogus")], fun _ _ _ => false, fun _ => .openFail⟩

/-- Descriptor `[/Indexed /DeviceRGB 1 9 0 R]` where stream 9 yields only 4 of the 6
required bytes. -/
def dIdx : Doc :=
  ⟨[(1, .array [2, 3, 4, 5]), (2, .name "Indexed"), (3, .name "DeviceRGB"), (4, .int 1),
    (5, .ref 9), (9, .null)],
   fun _ _ _ => false, fun t => if t = 9 then .ok [7, 8, 9, 10] else .openFail⟩

/-- Descriptor `[/Indexed /DeviceRGB 1 9 0 R]` where opening stream 9 fails. -/
def dIdxFail : Doc :=
  ⟨[(1, .array [2, 3, 4, 5]), (2, .name "Indexed"), (3, .name "DeviceRGB"), (4, .int 1),
    (5, .ref 9), (9, .null)],
   fun _ _ _ => false, fun _ => .openFail⟩

/-- Descriptor `[/Separation /Ink /DeviceRGB t]` with a loadable tint function. -/
def dSep : Doc :=
  ⟨[(1, .array [2, 3, 4, 5]), (2, .name "Separation"), (3, .name "Ink"), (4, .name "DeviceRGB"),
    (5, .null)], fun _ _ _ => true, fun _ => .openFail⟩

/-- Descriptor `[/ICCBased d]` with `d = (N: 3, Alternate: /DeviceCMYK)` — the alternate
resolves but its component count mismatches. -/
def dIcc : Doc :=
  ⟨[(1, .array [2, 3]), (2, .name "ICCBased"), (3, .dict [("N", 4), ("Alternate", 5)]),
    (4, .int 3), (5, .name "DeviceCMYK")], fun _ _ _ => false, fun _ => .openFail⟩

/-- Descriptor `[/ICCBased d]` with `d` lacking `/N` and `Alternate` a DeviceN colorspace
with an empty `Names` array — the alternate resolves with 0 components. -/
def dC10 : Doc :=
  ⟨[(10, .array [11, 1]), (11, .name "ICCBased"), (1, .dict [("Alternate", 2)]),
    (2, .array [3, 4, 5, 6]), (3, .name "DeviceN"), (4, .array []), (5, .name "DeviceGray"),
    (6, .null)], fun _ _ _ => true, fun _ => .openFail⟩

/-! ### The claims -/

/-- C7: the recursion mark set before descending into a deep family builder is
cleared before control returns past that descent, on success and on every
error; resolving `["Bogus"]` fails with a SyntaxError-class error, creates no
cache entry, and leaves no recursion mark set (the final state is exactly the
initial empty state). -/
theorem c7_marks_always_cleared :
    (∀ (f : Nat) (d : Doc) (st : St) (obj : Option Nat),
      (pdf_load_colorspace f d st obj).2.marks = st.marks) ∧
    pdf_load_colorspace 9 dBogus st0 (some 1) = (.error (.unknownFamily "Bogus"), st0) ∧
    errClass (.unknownFamily "Bogus") = .syntaxError ∧
    (pdf_load_colorspace 9 dBogus st0 (some 1)).2.cache = [] ∧
    (pdf_load_colorspace 9 dBogus st0 (some 1)).2.marks = [] := by
  refine ⟨?_, by decide, by decide, by decide, by decide⟩
  intro f d st obj
  exact (load_good f d st obj).1

/-- C4: a descriptor already marked as in-progress fails immediately with the
cycle error — for an arbitrary nested resolver `R`, i.e. without descending
again — and the state is untouched; concretely, an Indexed and a Separation
descriptor whose base refers back to the originating descriptor resolve to
the cycle error, whose class is CycleError. -/
theorem c4_cycle_guard :
    (∀ (R : St → Option Nat → Except Err CS × St) (d : Doc) (st : St) (obj : Option Nat),
      pdf_obj_marked d st obj = true →
      pdf_load_colorspace_imp R d st obj = (.error .recursion, st)) ∧
    errClass .recursion = .cycleError ∧
    (pdf_load_colorspace 9 dCyc st0 (some 1)).1 = .error .recursion ∧
    (pdf_load_colorspace 9 dCycSep st0 (some 1)).1 = .error .recursion := by
  refine ⟨?_, by decide, by decide, by decide⟩
  intro R d st obj h
  simp only [pdf_load_colorspace_imp]
  rw [if_pos h]

/-- Witness for C4: a concrete marked state fails immediately. -/
theorem c4_cycle_guard_witness :
    pdf_obj_marked dBogus ⟨[], [1], [], 0⟩ (some 1) = true ∧
    pdf_load_colorspace_imp (fun s _ => (.error .fuelOut, s)) dBogus ⟨[], [1], [], 0⟩ (some 1)
      = (.error .recursion, ⟨[], [1], [], 0⟩) :=
  ⟨by decide,
    (c4_cycle_guard.1 (fun s _ => (.error .fuelOut, s)) dBogus ⟨[], [1], [], 0⟩ (some 1)
      (by decide))⟩

/-- C2 counterexample: resolving a descriptor that is a plain name does create
a cache entry (and so does a direct-alias array), contrary to the claim that
only deep-family successes are cached: resolving the bare name `/DeviceRGB`
from an empty state leaves a cache entry keyed by the descriptor. -/
theorem c2_counterexample :
    resVal dName (some 1) = .name "DeviceRGB" ∧
    (pdf_load_colorspace 3 dName st0 (some 1)).1 = .ok (.device .rgb) ∧
    (pdf_load_colorspace 3 dName st0 (some 1)).2.cache = [(1, .device .rgb)] ∧
    resVal dAlias (some 1) = .array [2, 3] ∧
    resVal dAlias (some 2) = .name "CalRGB" ∧
    (pdf_load_colorspace 3 dAlias st0 (some 1)).2.cache = [(1, .device .rgb)] := by
  refine ⟨by decide, by decide, by decide, by decide, by decide, by decide⟩

theorem cache_incr (st : St) (o : Option Nat) : (heapIncr st o).cache = st.cache := by
  cases o with
  | none => rfl
  | some i => rfl

/-- C2 amended: a cache entry keyed by the descriptor identity is created on
every successful top-level resolution that was not already a cache hit —
plain names and direct-alias arrays included, not only deep-family builds. -/
theorem c2_cache_entry_on_every_success (f : Nat) (d : Doc) (st : St) (k : Nat)
    (cs : CS) (st' : St)
    (hmiss : pdf_find_item st (some k) = none)
    (hok : pdf_load_colorspace (f + 1) d st (some k) = (.ok cs, st')) :
    ∃ tail, st'.cache = (k, cs) :: tail := by
  rcases himp : pdf_load_colorspace_imp (fun s o => pdf_load_colorspace f d s o) d st (some k)
    with ⟨r1, st1⟩
  cases r1 with
  | error e =>
    have heq : pdf_load_colorspace (f + 1) d st (some k) = (.error e, st1) := by
      simp only [pdf_load_colorspace, hmiss, himp]
    rw [heq] at hok
    exact Except.noConfusion (congrArg Prod.fst hok)
  | ok cs1 =>
    have heq : pdf_load_colorspace (f + 1) d st (some k)
        = (.ok cs1, pdf_store_item st1 (some k) cs1) := by
      simp only [pdf_load_colorspace, hmiss, himp]
    rw [heq] at hok
    have h1 : cs1 = cs := Except.ok.inj (congrArg Prod.fst hok)
    have h2 : pdf_store_item st1 (some k) cs1 = st' := congrArg Prod.snd hok
    subst h1
    refine ⟨st1.cache, ?_⟩
    rw [← h2]
    show (heapIncr { st1 with cache := (k, cs1) :: st1.cache } (csId cs1)).cache = _
    rw [cache_incr]

/-- Witness for C2 amended: the cache-miss bare-name resolution stores the
singleton under the descriptor key. -/
theorem c2_cache_entry_witness :
    pdf_find_item st0 (some 1) = none ∧
    (∃ tail, (⟨[(1, .device .rgb)], [], [], 0⟩ : St).cache = (1, CS.device .rgb) :: tail) :=
  ⟨by decide,
    c2_cache_entry_on_every_success 2 dName st0 1 (.device .rgb) ⟨[(1, .device .rgb)], [], [], 0⟩
      (by decide) (by decide)⟩

/-- C3 counterexample: the bare names `/CalGray` and `/Lab` are NOT mapped to
device singletons as the claim states — they fail with the unknown-name
error (its class is SyntaxError, but the claim required success). -/
theorem c3_counterexample :
    resVal dCal (some 1) = .name "CalGray" ∧
    pdf_load_colorspace 3 dCal st0 (some 1) = (.error (.unknownName "CalGray"), st0) := by
  exact ⟨by decide, by decide⟩

/-- Device singleton selected by a recognized bare name. -/
def bareNameDev (s : String) : DevKind :=
  if s = "RGB" ∨ s = "DeviceRGB" then .rgb
  else if s = "CMYK" ∨ s = "DeviceCMYK" then .cmyk
  else .gray

/-- C3 amended: for a bare-name descriptor the recognized set is exactly
`{Pattern, G, RGB, CMYK, DeviceGray, DeviceRGB, DeviceCMYK}` (each mapping to
its device singleton, Pattern to gray); every other name — including CalGray,
CalRGB, CalCMYK and Lab, which are recognized only as array family heads —
fails with the unknown-name SyntaxError. -/
theorem c3_bare_name_set (R : St → Option Nat → Except Err CS × St) (d : Doc) (st : St)
    (obj : Option Nat) (s : String)
    (hmk : pdf_obj_marked d st obj = false)
    (hname : resVal d obj = .name s) :
    pdf_load_colorspace_imp R d st obj
      = (if s ∈ (["Pattern", "G", "RGB", "CMYK", "DeviceGray", "DeviceRGB", "DeviceCMYK"] : List String)
          then (.ok (.device (bareNameDev s)), st)
          else (.error (.unknownName s), st)) ∧
    ((s = "CalGray" ∨ s = "CalRGB" ∨ s = "CalCMYK" ∨ s = "Lab") →
      pdf_load_colorspace_imp R d st obj = (.error (.unknownName s), st)) ∧
    errClass (.unknownName s) = .syntaxError := by
  have hmk' : ¬ (pdf_obj_marked d st obj = true) := by simp [hmk]
  have hmain : pdf_load_colorspace_imp R d st obj
      = (if s ∈ (["Pattern", "G", "RGB", "CMYK", "DeviceGray", "DeviceRGB", "DeviceCMYK"] : List String)
          then (.ok (.device (bareNameDev s)), st)
          else (.error (.unknownName s), st)) := by
    simp only [pdf_load_colorspace_imp, hname]
    rw [if_neg hmk']
    by_cases e0 : s = "Pattern"
    · simp [e0, bareNameDev]
    by_cases e1 : s = "G"
    · simp [e1, bareNameDev]
    by_cases e2 : s = "RGB"
    · simp [e2, bareNameDev]
    by_cases e3 : s = "CMYK"
    · simp [e3, bareNameDev]
    by_cases e4 : s = "DeviceGray"
    · simp [e4, bareNameDev]
    by_cases e5 : s = "DeviceRGB"
    · simp [e5, bareNameDev]
    by_cases e6 : s = "DeviceCMYK"
    · simp [e6, bareNameDev]
    simp [e0, e1, e2, e3, e4, e5, e6]
  refine ⟨hmain, ?_, rfl⟩
  intro hcal
  rw [hmain, if_neg]
  intro hmem
  rcases hcal with h | h | h | h <;> subst h <;> simp at hmem

/-- Witness for C3 amended: at the concrete bare name `/CalGray` the resolver
fails with the unknown-name SyntaxError. -/
theorem c3_bare_name_set_witness :
    pdf_load_colorspace_imp (fun s _ => (.error .fuelOut, s)) dCal st0 (some 1)
      = (.error (.unknownName "CalGray"), st0) := by
  have h := (c3_bare_name_set (fun s _ => (.error .fuelOut, s)) dCal st0 (some 1) "CalGray"
    (by decide) (by decide)).2.1 (by left; rfl)
  exact h


/-- C1: for an ICCBased stream dictionary carrying an `Alternate` entry, the
builder resolves the alternate through the resolver; if the nested resolve
succeeds with component count equal to `N`, the alternate is returned
directly; if it succeeds with a different count the alternate is dropped, and
if it fails with ANY error the failure is swallowed — in both cases
resolution continues to the fallback `N ∈ {1, 3, 4} ↦ DeviceGray / DeviceRGB
/ DeviceCMYK`, and any other `N` fails with a SyntaxError-class error. -/
theorem c1_icc_alternate_recovery (f : Nat) (d : Doc) (st : St) (dictObj : Option Nat)
    (a : Nat) (hA : pdf_dict_get d dictObj "Alternate" = some a) :
    (∀ cs st1, pdf_load_colorspace f d st (some a) = (.ok cs, st1) →
      ((csN cs : Int) = pdf_to_int d (pdf_dict_get d dictObj "N") →
        load_icc_based (fun s o => pdf_load_colorspace f d s o) d st dictObj = (.ok cs, st1)) ∧
      ((csN cs : Int) ≠ pdf_to_int d (pdf_dict_get d dictObj "N") →
        load_icc_based (fun s o => pdf_load_colorspace f d s o) d st dictObj
          = icc_fallback (pdf_to_int d (pdf_dict_get d dictObj "N"))
              (fz_drop_colorspace st1 cs))) ∧
    (∀ e st1, pdf_load_colorspace f d st (some a) = (.error e, st1) →
      load_icc_based (fun s o => pdf_load_colorspace f d s o) d st dictObj
        = icc_fallback (pdf_to_int d (pdf_dict_get d dictObj "N")) st1) ∧
    (∀ s', icc_fallback 1 s' = (.ok (.device .gray), s')) ∧
    (∀ s', icc_fallback 3 s' = (.ok (.device .rgb), s')) ∧
    (∀ s', icc_fallback 4 s' = (.ok (.device .cmyk), s')) ∧
    (∀ (n : Int) s', n ≠ 1 → n ≠ 3 → n ≠ 4 → icc_fallback n s' = (.error .iccBadN, s')) ∧
    errClass .iccBadN = .syntaxError := by
  refine ⟨?_, ?_, fun s' => rfl, fun s' => rfl, fun s' => rfl, ?_, rfl⟩
  · intro cs st1 hok
    constructor
    · intro heqn
      simp only [load_icc_based, hA, hok]
      rw [if_neg (not_not_intro heqn)]
    · intro hne
      simp only [load_icc_based, hA, hok]
      rw [if_pos hne]
  · intro e st1 herr
    simp only [load_icc_based, hA, herr]
  · intro n s' h1 h3 h4
    simp only [icc_fallback]
    rw [if_neg h1, if_neg h3, if_neg h4]

/-- Witness for C1: the concrete mismatching alternate (`N = 3`, alternate
`/DeviceCMYK`) is dropped and the fallback yields DeviceRGB. -/
theorem c1_icc_alternate_recovery_witness :
    load_icc_based (fun s o => pdf_load_colorspace 9 dIcc s o) dIcc st0 (some 3)
      = (.ok (.device .rgb), ⟨[(5, .device .cmyk)], [], [], 0⟩) := by
  have h := ((c1_icc_alternate_recovery 9 dIcc st0 (some 3) 5 (by decide)).1 (.device .cmyk)
    ⟨[(5, .device .cmyk)], [], [], 0⟩ (by decide)).2 (by decide)
  rw [h]
  decide

/-- The Separation/DeviceN component count: length of the `names` entry when
it is an array, 1 otherwise (the local `n` of `load_separation`). -/
def sepN (d : Doc) (obj : Option Nat) : Nat :=
  if pdf_is_array d (pdf_array_get d obj 1) then pdf_array_len d (pdf_array_get d obj 1) else 1

/-- C6: the component count `n` equals the length of the names entry when it
is an array and 1 otherwise; `n > 32` fails with the ComponentLimitError
class before anything is resolved; on success the colorspace has component
count `n`, is named `Separation` exactly when `n = 1` and `DeviceN`
otherwise, and both carry the single Separation/DeviceN kind. -/
theorem c6_separation_components (R : St → Option Nat → Except Err CS × St) (d : Doc)
    (st : St) (obj : Option Nat) :
    (pdf_is_array d (pdf_array_get d obj 1) = true →
      sepN d obj = pdf_array_len d (pdf_array_get d obj 1)) ∧
    (pdf_is_array d (pdf_array_get d obj 1) = false → sepN d obj = 1) ∧
    (sepN d obj > 32 →
      load_separation R d st obj = (.error .tooManyComponents, st) ∧
      errClass .tooManyComponents = .componentLimitError) ∧
    (∀ cs st', load_separation R d st obj = (.ok cs, st') →
      csN cs = sepN d obj ∧
      csName cs = (if sepN d obj = 1 then "Separation" else "DeviceN") ∧
      kindOf cs = .sepDeviceN) := by
  refine ⟨?_, ?_, ?_, ?_⟩
  · intro h; simp [sepN, h]
  · intro h; simp [sepN, h]
  · intro h
    refine ⟨?_, rfl⟩
    simp only [load_separation]
    rw [if_pos (by simpa [sepN, FZ_MAX_COLORS] using h)]
  · intro cs st' hok
    by_cases hn : (if pdf_is_array d (pdf_array_get d obj 1) then
        pdf_array_len d (pdf_array_get d obj 1) else 1) > FZ_MAX_COLORS
    · exfalso
      simp only [load_separation] at hok
      rw [if_pos hn] at hok
      exact Except.noConfusion (congrArg Prod.fst hok)
    · rcases hb : R st (pdf_array_get d obj 2) with ⟨rb, st1⟩
      cases rb with
      | error e =>
        exfalso
        simp only [load_separation, hb] at hok
        rw [if_neg hn] at hok
        exact Except.noConfusion (congrArg Prod.fst hok)
      | ok base =>
        by_cases hfok : d.funcOk (pdf_array_get d obj 3)
            (if pdf_is_array d (pdf_array_get d obj 1) then
              pdf_array_len d (pdf_array_get d obj 1) else 1) (csN base)
        · simp only [load_separation, hb] at hok
          rw [if_neg hn, if_pos hfok] at hok
          have hcs : CS.sepcs (heapAlloc (heapAlloc st1 []).2
                ((csId base).toList ++ [(heapAlloc st1 []).1])).1
              (if ((if pdf_is_array d (pdf_array_get d obj 1) then
                    pdf_array_len d (pdf_array_get d obj 1) else 1) == 1)
                then "Separation" else "DeviceN")
              (if pdf_is_array d (pdf_array_get d obj 1) then
                pdf_array_len d (pdf_array_get d obj 1) else 1)
              base (heapAlloc st1 []).1 = cs :=
            Except.ok.inj (congrArg Prod.fst hok)
          rw [← hcs]
          refine ⟨rfl, ?_, rfl⟩
          show (if ((if pdf_is_array d (pdf_array_get d obj 1) then
              pdf_array_len d (pdf_array_get d obj 1) else 1) == 1)
            then "Separation" else "DeviceN") = _
          by_cases h1 : (if pdf_is_array d (pdf_array_get d obj 1) then
              pdf_array_len d (pdf_array_get d obj 1) else 1) = 1
          · rw [if_pos (by simpa using h1), if_pos (by simpa [sepN] using h1)]
          · rw [if_neg (by simpa using h1), if_neg (by simpa [sepN] using h1)]
        · exfalso
          simp only [load_separation, hb] at hok
          rw [if_neg hn, if_neg hfok] at hok
          exact Except.noConfusion (congrArg Prod.fst hok)

/-- Witness for C6: the concrete single-ink Separation yields `n = 1`, the
`Separation` label and the Separation/DeviceN kind. -/
theorem c6_separation_components_witness :
    csN (.sepcs 1 "Separation" 1 (.device .rgb) 0) = sepN dSep (some 1) ∧
    csName (.sepcs 1 "Separation" 1 (.device .rgb) 0)
      = (if sepN dSep (some 1) = 1 then "Separation" else "DeviceN") ∧
    kindOf (.sepcs 1 "Separation" 1 (.device .rgb) 0) = .sepDeviceN :=
  (c6_separation_components (fun s o => pdf_load_colorspace 9 dSep s o) dSep st0 (some 1)).2.2.2
    (.sepcs 1 "Separation" 1 (.device .rgb) 0)
    ⟨[(4, .device .rgb)], [], [(1, 1, [0]), (0, 1, [])], 2⟩ (by decide)

/-- C9: the is-tint predicate: every colorspace produced by the
Separation/DeviceN builder reports true; the predicate holds exactly on the
Separation/DeviceN kind (a stable type-tag check); every device singleton
reports false. -/
theorem c9_is_tint_predicate :
    (∀ (R : St → Option Nat → Except Err CS × St) (d : Doc) (st : St) (obj : Option Nat)
        (cs : CS) (st' : St),
      load_separation R d st obj = (.ok cs, st') →
      pdf_is_tint_colorspace cs = true) ∧
    (∀ cs, pdf_is_tint_colorspace cs = true ↔ kindOf cs = .sepDeviceN) ∧
    pdf_is_tint_colorspace (.device .rgb) = false ∧
    pdf_is_tint_colorspace (.device .gray) = false ∧
    pdf_is_tint_colorspace (.device .cmyk) = false ∧
    pdf_is_tint_colorspace (.device .lab) = false := by
  refine ⟨?_, ?_, rfl, rfl, rfl, rfl⟩
  · intro R d st obj cs st' hok
    by_cases hn : (if pdf_is_array d (pdf_array_get d obj 1) then
        pdf_array_len d (pdf_array_get d obj 1) else 1) > FZ_MAX_COLORS
    · exfalso
      simp only [load_separation] at hok
      rw [if_pos hn] at hok
      exact Except.noConfusion (congrArg Prod.fst hok)
    · rcases hb : R st (pdf_array_get d obj 2) with ⟨rb, st1⟩
      cases rb with
      | error e =>
        exfalso
        simp only [load_separation, hb] at hok
        rw [if_neg hn] at hok
        exact Except.noConfusion (congrArg Prod.fst hok)
      | ok base =>
        by_cases hfok : d.funcOk (pdf_array_get d obj 3)
            (if pdf_is_array d (pdf_array_get d obj 1) then
              pdf_array_len d (pdf_array_get d obj 1) else 1) (csN base)
        · simp only [load_separation, hb] at hok
          rw [if_neg hn, if_pos hfok] at hok
          have hcs := Except.ok.inj (congrArg Prod.fst hok)
          rw [← hcs]
          rfl
        · exfalso
          simp only [load_separation, hb] at hok
          rw [if_neg hn, if_neg hfok] at hok
          exact Except.noConfusion (congrArg Prod.fst hok)
  · intro cs
    cases cs with
    | device k => cases k <;> simp [pdf_is_tint_colorspace, fz_colorspace_is, csConv, kindOf]
    | indexed i b h l t => simp [pdf_is_tint_colorspace, fz_colorspace_is, csConv, kindOf]
    | sepcs i nm n b t => simp [pdf_is_tint_colorspace, fz_colorspace_is, csConv, kindOf]

/-- Witness for C9: the concrete builder output reports true. -/
theorem c9_is_tint_predicate_witness :
    pdf_is_tint_colorspace (.sepcs 1 "Separation" 1 (.device .rgb) 0) = true :=
  c9_is_tint_predicate.1 (fun s o => pdf_load_colorspace 9 dSep s o) dSep st0 (some 1)
    (.sepcs 1 "Separation" 1 (.device .rgb) 0)
    ⟨[(4, .device .rgb)], [], [(1, 1, [0]), (0, 1, [])], 2⟩ (by decide)

/-- C10 counterexample: an ICCBased dictionary with no `N` entry whose
`Alternate` is a DeviceN colorspace with an empty `Names` array resolves
SUCCESSFULLY (the alternate has 0 components, matching `N = 0`), refuting the
claim that such a resolve always fails with SyntaxError. -/
theorem c10_counterexample :
    pdf_dict_get dC10 (some 1) "N" = none ∧
    resVal dC10 (some 11) = .name "ICCBased" ∧
    (pdf_load_colorspace 9 dC10 st0 (some 10)).1
      = .ok (.sepcs 1 "DeviceN" 0 (.device .gray) 0) ∧
    csN (.sepcs 1 "DeviceN" 0 (.device .gray) 0) = 0 := by
  exact ⟨by decide, by decide, by decide, by decide⟩

/-- C10 amended: a missing or non-integer `N` reads as 0, and the device
fallback is never taken for it: the ICCBased builder either fails with the
SyntaxError-class bad-component-count error, or returns an alternate that has
exactly 0 components (possible only through a Separation/DeviceN alternate
with an empty Names array); in particular the result is never a device
singleton. -/
theorem c10_icc_zero_n (R : St → Option Nat → Except Err CS × St) (d : Doc) (st : St)
    (dictObj : Option Nat)
    (hN : ∀ i : Int, resVal d (pdf_dict_get d dictObj "N") ≠ .int i) :
    pdf_to_int d (pdf_dict_get d dictObj "N") = 0 ∧
    ((load_icc_based R d st dictObj).1 = .error .iccBadN ∨
      ∃ cs, (load_icc_based R d st dictObj).1 = .ok cs ∧ csN cs = 0) ∧
    (∀ k, (load_icc_based R d st dictObj).1 ≠ .ok (.device k)) ∧
    errClass .iccBadN = .syntaxError := by
  have h0 : pdf_to_int d (pdf_dict_get d dictObj "N") = 0 := by
    unfold pdf_to_int
    cases hv : resVal d (pdf_dict_get d dictObj "N") with
    | int i => exact absurd hv (hN i)
    | null => rfl
    | name s => rfl
    | string bs => rfl
    | ref t => rfl
    | array l => rfl
    | dict es => rfl
  have hmain : (load_icc_based R d st dictObj).1 = .error .iccBadN ∨
      ∃ cs, (load_icc_based R d st dictObj).1 = .ok cs ∧ csN cs = 0 := by
    cases hA : pdf_dict_get d dictObj "Alternate" with
    | none =>
      left
      simp only [load_icc_based, hA, h0]
      simp [icc_fallback]
    | some a =>
      rcases hRa : R st (some a) with ⟨r1, st1⟩
      cases r1 with
      | error e =>
        left
        simp only [load_icc_based, hA, hRa, h0]
        simp [icc_fallback]
      | ok cs_alt =>
        by_cases hne : (csN cs_alt : Int) ≠ 0
        · left
          simp only [load_icc_based, hA, hRa, h0]
          rw [if_pos hne]
          simp [icc_fallback]
        · right
          refine ⟨cs_alt, ?_, ?_⟩
          · simp only [load_icc_based, hA, hRa, h0]
            rw [if_neg hne]
          · have hz : (csN cs_alt : Int) = 0 := not_not.mp hne
            exact_mod_cast hz
  refine ⟨h0, hmain, ?_, rfl⟩
  intro k
  rcases hmain with h | ⟨cs, hcs, hn0⟩
  · rw [h]; intro hc; exact Except.noConfusion hc
  · rw [hcs]
    intro hc
    have hdev : cs = .device k := Except.ok.inj hc
    subst hdev
    cases k <;> simp [csN] at hn0

/-- Witness for C10 amended: at the concrete no-`N` descriptor the builder
returns the 0-component alternate (so the right disjunct holds). -/
theorem c10_icc_zero_n_witness :
    pdf_to_int dC10 (pdf_dict_get dC10 (some 1) "N") = 0 ∧
    ((load_icc_based (fun s o => pdf_load_colorspace 9 dC10 s o) dC10 st0 (some 1)).1
        = .error .iccBadN ∨
      ∃ cs, (load_icc_based (fun s o => pdf_load_colorspace 9 dC10 s o) dC10 st0 (some 1)).1
        = .ok cs ∧ csN cs = 0) := by
  have h := c10_icc_zero_n (fun s o => pdf_load_colorspace 9 dC10 s o) dC10 st0 (some 1)
    (by intro i hc
        rw [show resVal dC10 (pdf_dict_get dC10 (some 1) "N") = .null from rfl] at hc
        exact PdfVal.noConfusion hc)
  exact ⟨h.1, h.2.1⟩


/-- The clamped highest palette index of an Indexed array (the local `high`
of `load_indexed`). -/
def idx_high (d : Doc) (obj : Option Nat) : Nat :=
  (fz_clampi (pdf_to_int d (pdf_array_get d obj 2)) 0 255).toNat

/-- The lookup-table length `base.n * (hival + 1)` (the local `n` of
`load_indexed`). -/
def idx_tablelen (d : Doc) (obj : Option Nat) (base : CS) : Nat :=
  csN base * (idx_high d obj + 1)

/-- C5: `hival` is clamped to `[0, 255]` before the table length
`base.n * (hival + 1)` is computed; a lookup string of at least that length
yields a table equal to its first `base.n * (hival + 1)` bytes; an indirect
lookup stream shorter than that length succeeds with the missing trailing
bytes zero and table length exactly `base.n * (hival + 1)`; any other lookup
source — short literal string, absent, or any non-string non-reference —
fails with the SyntaxError-class lookup error. -/
theorem c5_indexed_lookup_table (R : St → Option Nat → Except Err CS × St) (d : Doc)
    (st : St) (obj : Option Nat) (base : CS) (st1 : St)
    (hbase : R st (pdf_array_get d obj 1) = (.ok base, st1)) :
    (idx_high d obj ≤ 255 ∧
      (255 < pdf_to_int d (pdf_array_get d obj 2) → idx_high d obj = 255)) ∧
    (pdf_is_string d (pdf_array_get d obj 3) = true →
      idx_tablelen d obj base ≤ pdf_to_str_len d (pdf_array_get d obj 3) →
      ∃ cid st',
        load_indexed R d st obj
          = (.ok (.indexed cid base (idx_high d obj) (heapAlloc st1 []).1
              ((pdf_to_str_bytes d (pdf_array_get d obj 3)).take (idx_tablelen d obj base))),
             st') ∧
        ((pdf_to_str_bytes d (pdf_array_get d obj 3)).take (idx_tablelen d obj base)).length
          = idx_tablelen d obj base) ∧
    (∀ bytes,
      ¬ (pdf_is_string d (pdf_array_get d obj 3) = true ∧
          pdf_to_str_len d (pdf_array_get d obj 3) ≥ idx_tablelen d obj base) →
      pdf_is_indirect d (pdf_array_get d obj 3) = true →
      d.streams (refTarget d (pdf_array_get d obj 3)) = .ok bytes →
      bytes.length ≤ idx_tablelen d obj base →
      ∃ cid st',
        load_indexed R d st obj
          = (.ok (.indexed cid base (idx_high d obj) (heapAlloc st1 []).1
              (bytes ++ List.replicate (idx_tablelen d obj base - bytes.length) 0)), st') ∧
        (bytes ++ List.replicate (idx_tablelen d obj base - bytes.length) 0).length
          = idx_tablelen d obj base) ∧
    (¬ (pdf_is_string d (pdf_array_get d obj 3) = true ∧
        pdf_to_str_len d (pdf_array_get d obj 3) ≥ idx_tablelen d obj base) →
      pdf_is_indirect d (pdf_array_get d obj 3) = false →
      load_indexed R d st obj
        = (.error .badLookup,
            heapDecr (fz_drop_colorspace (heapAlloc st1 []).2 base) (some (heapAlloc st1 []).1)) ∧
      errClass .badLookup = .syntaxError) := by
  refine ⟨?_, ?_, ?_, ?_⟩
  · constructor
    · simp only [idx_high, fz_clampi]
      split_ifs <;> omega
    · intro hgt
      simp only [idx_high, fz_clampi]
      split_ifs <;> omega
  · intro hs hlen
    have hlen' := hlen
    simp only [idx_tablelen, idx_high] at hlen'
    refine ⟨(heapAlloc (heapAlloc st1 []).2 ((csId base).toList ++ [(heapAlloc st1 []).1])).1,
      (heapAlloc (heapAlloc st1 []).2 ((csId base).toList ++ [(heapAlloc st1 []).1])).2, ?_, ?_⟩
    · simp only [load_indexed, hbase, idx_tablelen, idx_high]
      rw [if_pos ⟨hs, hlen'⟩]
    · rw [List.length_take]
      exact Nat.min_eq_left hlen
  · intro bytes hnstr hind hsk hlen
    simp only [idx_tablelen, idx_high] at hnstr hlen
    refine ⟨(heapAlloc
        (heapDecr (heapAlloc (heapAlloc st1 []).2 []).2 (some (heapAlloc (heapAlloc st1 []).2 []).1))
        ((csId base).toList ++ [(heapAlloc st1 []).1])).1,
      (heapAlloc
        (heapDecr (heapAlloc (heapAlloc st1 []).2 []).2 (some (heapAlloc (heapAlloc st1 []).2 []).1))
        ((csId base).toList ++ [(heapAlloc st1 []).1])).2, ?_, ?_⟩
    · have heq : load_indexed R d st obj
          = (.ok (.indexed
              (heapAlloc
                (heapDecr (heapAlloc (heapAlloc st1 []).2 []).2
                  (some (heapAlloc (heapAlloc st1 []).2 []).1))
                ((csId base).toList ++ [(heapAlloc st1 []).1])).1
              base
              ((fz_clampi (pdf_to_int d (pdf_array_get d obj 2)) 0 255).toNat)
              (heapAlloc st1 []).1
              (bytes.take (csN base * ((fz_clampi (pdf_to_int d (pdf_array_get d obj 2)) 0 255).toNat + 1))
                ++ List.replicate
                  (csN base * ((fz_clampi (pdf_to_int d (pdf_array_get d obj 2)) 0 255).toNat + 1)
                    - min bytes.length
                      (csN base * ((fz_clampi (pdf_to_int d (pdf_array_get d obj 2)) 0 255).toNat + 1))) 0)),
            (heapAlloc
              (heapDecr (heapAlloc (heapAlloc st1 []).2 []).2
                (some (heapAlloc (heapAlloc st1 []).2 []).1))
              ((csId base).toList ++ [(heapAlloc st1 []).1])).2) := by
        simp only [load_indexed, hbase]
        rw [if_neg hnstr, if_pos hind, hsk]
      rw [List.take_of_length_le hlen, Nat.min_eq_left hlen] at heq
      simpa only [idx_tablelen, idx_high] using heq
    · simp only [idx_tablelen, idx_high]
      rw [List.length_append, List.length_replicate]
      omega
  · intro hnstr hnind
    simp only [idx_tablelen, idx_high] at hnstr
    refine ⟨?_, rfl⟩
    have hnind' : ¬ (pdf_is_indirect d (pdf_array_get d obj 3) = true) := by simp [hnind]
    simp only [load_indexed, hbase, idx_tablelen, idx_high]
    rw [if_neg hnstr, if_neg hnind']

/-- Witness for C5: the concrete short-stream Indexed array succeeds with the
4 read bytes zero-padded to the 6-byte table. -/
theorem c5_indexed_lookup_table_witness :
    ∃ cid st',
      load_indexed (fun s o => pdf_load_colorspace 9 dIdx s o) dIdx st0 (some 1)
        = (.ok (.indexed cid (.device .rgb) (idx_high dIdx (some 1))
            (heapAlloc (⟨[(3, .device .rgb)], [], [], 0⟩ : St) []).1
            ([7, 8, 9, 10] ++ List.replicate
              (idx_tablelen dIdx (some 1) (.device .rgb) - ([7, 8, 9, 10] : List Nat).length) 0)),
           st') ∧
      (([7, 8, 9, 10] : List Nat) ++ List.replicate
          (idx_tablelen dIdx (some 1) (.device .rgb) - ([7, 8, 9, 10] : List Nat).length) 0).length
        = idx_tablelen dIdx (some 1) (.device .rgb) :=
  (c5_indexed_lookup_table (fun s o => pdf_load_colorspace 9 dIdx s o) dIdx st0 (some 1)
      (.device .rgb) ⟨[(3, .device .rgb)], [], [], 0⟩ (by decide)).2.2.1
    [7, 8, 9, 10] (by decide) (by decide) (by decide) (by decide)

/-- C8: no reference leaks on any path.  Starting from a fresh, conserving
state (every reference count equals the number of holders among caller roots,
cache entries and owning allocations), the resolver and every builder
preserve the conservation law: on any error every locally acquired reference
has been released (the accounting equation holds for the original roots), and
on success the only extra holder is the caller's reference on the returned
colorspace. -/
theorem c8_no_leaks (f : Nat) (d : Doc) (st : St) (obj : Option Nat) (roots : List Nat)
    (hf : freshSt st) (hw : wfSt st roots) :
    (∀ e st', pdf_load_colorspace f d st obj = (.error e, st') → wfSt st' roots) ∧
    (∀ cs st', pdf_load_colorspace f d st obj = (.ok cs, st') → wfSt st' (pushRef cs roots)) ∧
    (∀ e st', load_separation (fun s o => pdf_load_colorspace f d s o) d st obj = (.error e, st')
      → wfSt st' roots) ∧
    (∀ cs st', load_separation (fun s o => pdf_load_colorspace f d s o) d st obj = (.ok cs, st')
      → wfSt st' (pushRef cs roots)) ∧
    (∀ e st', load_indexed (fun s o => pdf_load_colorspace f d s o) d st obj = (.error e, st')
      → wfSt st' roots) ∧
    (∀ cs st', load_indexed (fun s o => pdf_load_colorspace f d s o) d st obj = (.ok cs, st')
      → wfSt st' (pushRef cs roots)) ∧
    (∀ e st', load_icc_based (fun s o => pdf_load_colorspace f d s o) d st obj = (.error e, st')
      → wfSt st' roots) ∧
    (∀ cs st', load_icc_based (fun s o => pdf_load_colorspace f d s o) d st obj = (.ok cs, st')
      → wfSt st' (pushRef cs roots)) := by
  have hget : ∀ (p : Except Err CS × St), GoodCall st p →
      (∀ e st', p = (.error e, st') → wfSt st' roots) ∧
      (∀ cs st', p = (.ok cs, st') → wfSt st' (pushRef cs roots)) := by
    intro p hp
    rcases p with ⟨r, s2⟩
    obtain ⟨hm, hin⟩ := GoodCall_elim hp
    obtain ⟨hfr, herr, hok⟩ := hin roots hf hw
    constructor
    · intro e st' hpe
      have h1 : r = .error e := congrArg Prod.fst hpe
      have h2 : s2 = st' := congrArg Prod.snd hpe
      rw [← h2]
      exact herr e h1
    · intro cs st' hpe
      have h1 : r = .ok cs := congrArg Prod.fst hpe
      have h2 : s2 = st' := congrArg Prod.snd hpe
      rw [← h2]
      exact hok cs h1
  have hload := load_good f d
  exact ⟨(hget _ (hload st obj)).1, (hget _ (hload st obj)).2,
    (hget _ (sep_good hload d st obj)).1, (hget _ (sep_good hload d st obj)).2,
    (hget _ (idx_good hload d st obj)).1, (hget _ (idx_good hload d st obj)).2,
    (hget _ (icc_good hload d st obj)).1, (hget _ (icc_good hload d st obj)).2⟩

/-- Witness for C8: the concrete failing-stream Indexed resolve releases
everything — the final state satisfies the conservation law with no
caller-held references (the lookup buffer id 0 was freed: its count is 0). -/
theorem c8_no_leaks_witness :
    freshSt st0 ∧ wfSt st0 [] ∧
    wfSt (⟨[(3, .device .rgb)], [], [(0, 0, [])], 1⟩ : St) [] := by
  have hf : freshSt st0 := fun i _ => ⟨rfl, rfl, rfl⟩
  have hw : wfSt st0 [] := fun i => rfl
  exact ⟨hf, hw,
    (c8_no_leaks 9 dIdxFail st0 (some 1) [] hf hw).1 .streamOpenFail
      ⟨[(3, .device .rgb)], [], [(0, 0, [])], 1⟩ (by decide)⟩

end Mupdf
